import Mathlib

/-!
# Package `logger`: a shallow embedding and its verified properties

The definitions below follow the Go sources `logger.go`, `entry.go`,
`formatter.go` and `exported.go` function by function.  Conventions:

* a Go `string` is a Lean `String` (valid UTF-8 text);
* `Level` is Go's `uint32`, embedded as a natural number;
* a Go `map[string]interface{}` is a list of bindings with pairwise distinct
  keys; the list order is the order in which `range` visits the map, so a
  statement over all such lists covers every iteration order;
* a log call is run on an explicit state (`World`) and yields the calls it
  makes on its collaborators, in order (`Run.trace`), and how it ends;
* calls into the standard library, the clock, the file system and the
  pluggable collaborators (hooks, formatter, sink) are parameters; a hook or
  formatter is a function of the entry it is handed and returns its result
  without writing to that entry.
-/

namespace logger

/-! ## Levels (`logger.go`) -/

/-- Go: `type Level uint32`. -/
abbrev Level := Nat

def PanicLevel : Level := 0
def FatalLevel : Level := 1
def ErrorLevel : Level := 2
def WarnLevel : Level := 3
def InfoLevel : Level := 4
def DebugLevel : Level := 5
def TraceLevel : Level := 6

/-- Go: `var AllLevels = []Level{...}`. -/
def AllLevels : List Level :=
  [PanicLevel, FatalLevel, ErrorLevel, WarnLevel, InfoLevel, DebugLevel, TraceLevel]

/-- Errors built with `fmt.Errorf` in `logger.go`; the constructor records the
format string used and the argument it was applied to. -/
inductive LevelError where
  /-- Go: `fmt.Errorf("not a valid logger Level: %q", lvl)` -/
  | notValidName (lvl : String)
  /-- Go: `fmt.Errorf("not a valid logger level %d", level)` -/
  | notValidLevel (level : Level)
  deriving DecidableEq, Repr

deriving instance DecidableEq for Except

/-- Go: `unicode.ToLower` on one rune.  The ASCII range is computed as the
library does; `uni` stands for the Unicode case tables used above it. -/
def toLowerRune (uni : Char → Char) (c : Char) : Char :=
  if c.toNat < 128 then
    (if 65 ≤ c.toNat ∧ c.toNat ≤ 90 then Char.ofNat (c.toNat + 32) else c)
  else uni c

/-- Go: `strings.ToLower`. -/
def ToLower (uni : Char → Char) (s : String) : String :=
  String.mk (s.data.map (toLowerRune uni))

/-- Go: `func (level Level) MarshalText() ([]byte, error)`. -/
def Level.MarshalText (level : Level) : Except LevelError String :=
  if level = TraceLevel then .ok "trace"
  else if level = DebugLevel then .ok "debug"
  else if level = InfoLevel then .ok "info"
  else if level = WarnLevel then .ok "warning"
  else if level = ErrorLevel then .ok "error"
  else if level = FatalLevel then .ok "fatal"
  else if level = PanicLevel then .ok "panic"
  else .error (.notValidLevel level)

/-- Go: `func ParseLevel(lvl string) (Level, error)`. -/
def ParseLevel (uni : Char → Char) (lvl : String) : Except LevelError Level :=
  let s := ToLower uni lvl
  if s = "panic" then .ok PanicLevel
  else if s = "fatal" then .ok FatalLevel
  else if s = "error" then .ok ErrorLevel
  else if s = "warn" ∨ s = "warning" then .ok WarnLevel
  else if s = "info" then .ok InfoLevel
  else if s = "debug" then .ok DebugLevel
  else if s = "trace" then .ok TraceLevel
  else .error (.notValidName lvl)

/-- Go: `func (level *Level) UnmarshalText(text []byte) error`.  The first
component is the value of `*level` after the call. -/
def Level.UnmarshalText (uni : Char → Char) (level : Level) (text : String) :
    Level × Option LevelError :=
  match ParseLevel uni text with
  | .error err => (level, some err)
  | .ok l => (l, none)

/-- Go: `func (level Level) String() string`. -/
def Level.String (level : Level) : String :=
  match level.MarshalText with
  | .ok b => b
  | .error _ => "unknown"

/-! ## Field values and field maps (`logger.go`, `entry.go`) -/

/-- Go: `reflect.Kind`, restricted to the kinds the package inspects. -/
inductive Kind where
  | Func
  | Ptr
  | Struct
  | Other
  deriving DecidableEq, Repr

/-- Dynamic type of an `interface{}` value, as seen through `reflect.Type`. -/
inductive GoType where
  | Func
  | Struct
  | Ptr (elem : GoType)
  | Other (name : String)
  deriving DecidableEq, Repr

/-- Go: `reflect.Type.Kind`. -/
def GoType.Kind : GoType → Kind
  | .Func => .Func
  | .Struct => .Struct
  | .Ptr _ => .Ptr
  | .Other _ => .Other

/-- Go: `reflect.Type.Elem` (only called on pointer types by this package). -/
def GoType.Elem : GoType → GoType
  | .Ptr elem => elem
  | t => t

/-- An `interface{}` value: its dynamic type (`none` for the nil interface) and
a rendering of its payload that identifies it. -/
structure Value where
  typ : Option GoType
  repr : String
  deriving DecidableEq, Repr

/-- Go: `reflect.TypeOf`. -/
def reflect.TypeOf (v : Value) : Option GoType := v.typ

/-- Go: `type Fields map[string]interface{}`.  `entries` lists the bindings in
the order `range` visits them; a map holds one binding per key. -/
structure Fields where
  entries : List (String × Value)
  nodup : (entries.map Prod.fst).Nodup

instance : DecidableEq Fields := fun a b =>
  decidable_of_iff (a.entries = b.entries)
    ⟨fun h => by cases a; cases b; cases h; rfl, fun h => by rw [h]⟩

instance : Repr Fields := ⟨fun d n => reprPrec d.entries n⟩

/-- Go: `make(Fields, n)` (the capacity hint has no observable effect). -/
def Fields.make : Fields := ⟨[], List.nodup_nil⟩

/-- Go: `v, ok := data[k]`. -/
def Fields.get (data : Fields) (k : String) : Option Value :=
  data.entries.lookup k

/-- Go: `_, ok := data[k]`. -/
def Fields.has (data : Fields) (k : String) : Bool :=
  (data.get k).isSome

/-- Go: `delete(data, k)`. -/
def Fields.delete (data : Fields) (k : String) : Fields :=
  ⟨data.entries.filter (fun p => p.1 ≠ k),
    List.Nodup.sublist (List.Sublist.map _ (List.filter_sublist _)) data.nodup⟩

/-- Go: `data[k] = v`. -/
def Fields.set (data : Fields) (k : String) (v : Value) : Fields :=
  ⟨(k, v) :: (data.delete k).entries, by
    have h := (data.delete k).nodup
    simp only [List.map_cons, List.nodup_cons]
    refine ⟨?_, h⟩
    simp [Fields.delete]⟩

/-- Go: `len(data)`. -/
def Fields.len (data : Fields) : Nat := data.entries.length

/-! ## Entries and their builders (`entry.go`) -/

/-- Go: `time.Time`, as a count of clock ticks since the zero instant. -/
abbrev Time := Nat

/-- Go: `time.Time.IsZero`. -/
def Time.IsZero (t : Time) : Bool := t == 0

/-- Go: `runtime.Frame`, the call site resolved by `getCaller`. -/
structure Frame where
  Function : String
  File : String
  Line : Nat
  deriving DecidableEq, Repr

/-- Go: `context.Context`; opaque to the package, `none` is the nil interface. -/
abbrev Context := Option String

/-- Address of a `Logger` object (`*Logger`). -/
abbrev LoggerRef := Nat

/-- Go: `type Entry struct`.  `Buffer` holds the contents of the pooled
`*bytes.Buffer` while one is attached. -/
structure Entry where
  Logger : LoggerRef
  Data : Fields
  Time : Time := 0
  Level : Level := 0
  Caller : Option Frame := none
  Message : String := ""
  Buffer : Option String := none
  Context : Context := none
  err : String := ""
  Field : Option Value := none
  deriving DecidableEq, Repr

/-- Go: `var ErrorKey = "error"`: the value the exported package variable holds
until a caller reassigns it.  `WithError` reads the variable when it is
called, so it takes the current value as an argument. -/
def ErrorKey : String := "error"

/-- Go: `func NewEntry(logger *Logger) *Entry`. -/
def NewEntry (lg : LoggerRef) : Entry :=
  { Logger := lg, Data := Fields.make }

/-- The loop `for k, v := range src { dst[k] = v }` used by every builder. -/
def copyInto (dst : Fields) (src : Fields) : Fields :=
  src.entries.foldl (fun data kv => data.set kv.1 kv.2) dst

/-- The test made on each incoming value in `WithFields`:
`reflect.TypeOf(v)` is a function type or a pointer to a function type. -/
def isErrField (v : Value) : Bool :=
  match reflect.TypeOf v with
  | none => false
  | some t =>
    match t.Kind with
    | .Func => true
    | .Ptr => t.Elem.Kind == Kind.Func
    | _ => false

/-- Go: `fmt.Sprintf("can not add field %q", k)`; `quote` is `strconv.Quote`,
which `%q` applies to a string. -/
def cannotAdd (quote : String → String) (k : String) : String :=
  "can not add field " ++ quote k

/-- One iteration of `for k, v := range fields` in `WithFields`; the state is
the pair of local variables `(data, fieldErr)`. -/
def WithFields.step (quote : String → String) (entryErr : String)
    (st : Fields × String) (kv : String × Value) : Fields × String :=
  if isErrField kv.2 then
    let tmp := cannotAdd quote kv.1
    if st.2 ≠ "" then (st.1, entryErr ++ ", " ++ tmp) else (st.1, tmp)
  else (st.1.set kv.1 kv.2, st.2)

/-- Go: `func (entry *Entry) WithFields(fields Fields) *Entry`: the struct the
returned pointer refers to. -/
def Entry.WithFields (quote : String → String) (entry : Entry) (fields : Fields) : Entry :=
  let data := copyInto Fields.make entry.Data
  let fieldErr := entry.err
  let st := fields.entries.foldl (WithFields.step quote entry.err) (data, fieldErr)
  { Logger := entry.Logger, Data := st.1, Time := entry.Time, err := st.2,
    Context := entry.Context }

/-- Go: `func (entry *Entry) WithField(key string, value interface{}) *Entry`. -/
def Entry.WithField (quote : String → String) (entry : Entry) (key : String)
    (value : Value) : Entry :=
  entry.WithFields quote (Fields.make.set key value)

/-- Go: `func (entry *Entry) WithError(err error) *Entry`; `errorKey` is the
value of the package variable `ErrorKey` at the call, and the error is passed
as the interface value it is stored as. -/
def Entry.WithError (quote : String → String) (errorKey : String) (entry : Entry)
    (err : Value) : Entry :=
  entry.WithField quote errorKey err

/-- Go: `func (entry *Entry) WithContext(ctx context.Context) *Entry`. -/
def Entry.WithContext (entry : Entry) (ctx : logger.Context) : Entry :=
  let dataCopy := copyInto Fields.make entry.Data
  { Logger := entry.Logger, Data := dataCopy, Time := entry.Time, err := entry.err,
    Context := ctx }

/-- Go: `func (entry *Entry) WithTime(t time.Time) *Entry`. -/
def Entry.WithTime (entry : Entry) (t : logger.Time) : Entry :=
  let dataCopy := copyInto Fields.make entry.Data
  { Logger := entry.Logger, Data := dataCopy, Time := t, err := entry.err,
    Context := entry.Context }

/-! ### Builders at the level of pointers

The builders take `*Entry` and return `*Entry`, and a Go map is a reference to
a map object.  `Heap` holds the map objects and the `Entry` structs; an
address is an index.  The builders below follow the source statement by
statement: `make` allocates a map object, `data[k] = v` writes to the map
object `data` refers to, `&Entry{...}` allocates a struct. -/

/-- Address of an `Entry` object (`*Entry`). -/
abbrev Ptr := Nat

/-- Address of a map object. -/
abbrev MapRef := Nat

/-- An `Entry` struct as it lies in memory: `Data` refers to a map object. -/
structure EntryObj where
  Logger : LoggerRef
  Data : MapRef
  Time : Time := 0
  Level : Level := 0
  Caller : Option Frame := none
  Message : String := ""
  Buffer : Option String := none
  Context : Context := none
  err : String := ""
  Field : Option Value := none
  deriving DecidableEq, Repr

/-- The struct `o` read together with the content `data` of its map. -/
def EntryObj.load (o : EntryObj) (data : Fields) : Entry :=
  { Logger := o.Logger, Data := data, Time := o.Time, Level := o.Level, Caller := o.Caller,
    Message := o.Message, Buffer := o.Buffer, Context := o.Context, err := o.err,
    Field := o.Field }

/-- The struct holding the fields of `e`, with `Data` referring to `ref`. -/
def Entry.store (e : Entry) (ref : MapRef) : EntryObj :=
  { Logger := e.Logger, Data := ref, Time := e.Time, Level := e.Level, Caller := e.Caller,
    Message := e.Message, Buffer := e.Buffer, Context := e.Context, err := e.err,
    Field := e.Field }

/-- The map objects and `Entry` structs allocated so far. -/
structure Heap where
  maps : List Fields
  objs : List EntryObj
  deriving DecidableEq, Repr

/-- Read an `Entry` through a pointer, with the content of the map it refers
to; `none` when the struct or the map is not allocated. -/
def Heap.deref (h : Heap) (p : Ptr) : Option Entry :=
  match h.objs.get? p with
  | none => none
  | some o => (h.maps.get? o.Data).map o.load

/-- Go: `make(Fields, n)`: a new, empty map object and the reference to it. -/
def Heap.makeMap (h : Heap) : Heap × MapRef :=
  (⟨h.maps ++ [Fields.make], h.objs⟩, h.maps.length)

/-- The content of the map object `m` refers to, as `range m` and `m[k]` read
it (a reference to no object reads as the empty map, like a nil map). -/
def Heap.readMap (h : Heap) (m : MapRef) : Fields :=
  (h.maps.get? m).getD Fields.make

/-- Go: `m[k] = v`: a write to the map object `m` refers to.  The builders
write only through the reference `make` has just returned, so the write to a
nil map, which panics in Go, does not arise. -/
def Heap.mapAssign (h : Heap) (m : MapRef) (k : String) (v : Value) : Heap :=
  ⟨h.maps.set m ((h.readMap m).set k v), h.objs⟩

/-- Go: `&Entry{...}`: a new struct and the pointer to it. -/
def Heap.newStruct (h : Heap) (o : EntryObj) : Heap × Ptr :=
  (⟨h.maps, h.objs ++ [o]⟩, h.objs.length)

/-- The loop `for k, v := range src { dst[k] = v }` on map objects; `src` is
the content of the map ranged over. -/
def Heap.copyLoop (h : Heap) (dst : MapRef) (src : Fields) : Heap :=
  src.entries.foldl (fun hh kv => hh.mapAssign dst kv.1 kv.2) h

/-- One iteration of `for k, v := range fields` in `WithFields`, on the heap:
the state is the heap and the local variable `fieldErr`; `data` is the
reference held by the local variable `data`. -/
def Heap.WithFields.step (quote : String → String) (entryErr : String) (data : MapRef)
    (st : Heap × String) (kv : String × Value) : Heap × String :=
  if isErrField kv.2 then
    let tmp := cannotAdd quote kv.1
    if st.2 ≠ "" then (st.1, entryErr ++ ", " ++ tmp) else (st.1, tmp)
  else (st.1.mapAssign data kv.1 kv.2, st.2)

/-- Go: `func (entry *Entry) WithFields(fields Fields) *Entry`, on the heap;
`fields` is the reference the caller passes, and `range fields` visits the
content of the map object it refers to.  `none` is the nil-pointer
dereference of a receiver that is not allocated. -/
def Heap.WithFields (quote : String → String) (h : Heap) (entry : Ptr) (fields : MapRef) :
    Option (Heap × Ptr) :=
  match h.objs.get? entry with
  | none => none
  | some o =>
    let made := h.makeMap
    let data := made.2
    let h1 := made.1.copyLoop data (made.1.readMap o.Data)
    let fieldErr := o.err
    let st := (h1.readMap fields).entries.foldl (Heap.WithFields.step quote o.err data)
      (h1, fieldErr)
    some (st.1.newStruct
      { Logger := o.Logger, Data := data, Time := o.Time, err := st.2, Context := o.Context })

/-- Go: the map literal `Fields{key: value}`: a new map object holding one
binding, and the reference to it. -/
def Heap.mapLiteral (h : Heap) (key : String) (value : Value) : Heap × MapRef :=
  let made := h.makeMap
  (made.1.mapAssign made.2 key value, made.2)

/-- Go: `func (entry *Entry) WithField(key string, value interface{}) *Entry`,
on the heap. -/
def Heap.WithField (quote : String → String) (h : Heap) (entry : Ptr) (key : String)
    (value : Value) : Option (Heap × Ptr) :=
  let lit := h.mapLiteral key value
  lit.1.WithFields quote entry lit.2

/-- Go: `func (entry *Entry) WithError(err error) *Entry`, on the heap;
`errorKey` is the value of the package variable `ErrorKey` at the call. -/
def Heap.WithError (quote : String → String) (errorKey : String) (h : Heap) (entry : Ptr)
    (err : Value) : Option (Heap × Ptr) :=
  h.WithField quote entry errorKey err

/-- Go: `func (entry *Entry) WithContext(ctx context.Context) *Entry`, on the
heap. -/
def Heap.WithContext (h : Heap) (entry : Ptr) (ctx : Context) : Option (Heap × Ptr) :=
  match h.objs.get? entry with
  | none => none
  | some o =>
    let made := h.makeMap
    let dataCopy := made.2
    let h1 := made.1.copyLoop dataCopy (made.1.readMap o.Data)
    some (h1.newStruct
      { Logger := o.Logger, Data := dataCopy, Time := o.Time, err := o.err, Context := ctx })

/-- Go: `func (entry *Entry) WithTime(t time.Time) *Entry`, on the heap. -/
def Heap.WithTime (h : Heap) (entry : Ptr) (t : Time) : Option (Heap × Ptr) :=
  match h.objs.get? entry with
  | none => none
  | some o =>
    let made := h.makeMap
    let dataCopy := made.2
    let h1 := made.1.copyLoop dataCopy (made.1.readMap o.Data)
    some (h1.newStruct
      { Logger := o.Logger, Data := dataCopy, Time := t, err := o.err, Context := o.Context })

/-! ## Loggers, package state and the environment (`logger.go`, `exported.go`) -/

/-- A Go `error`, represented by its message. -/
abbrev Error := String

/-- A `[]byte`, represented by the text it holds. -/
abbrev Bytes := String

/-- Go: `io.Writer` values the package handles: the nil interface, the standard
streams, an opened `*os.File` (identified by the name it was opened with), the
fan-out built by `io.MultiWriter` from two writers, and any other writer. -/
inductive Writer where
  | nil
  | stderr
  | stdout
  | file (name : String)
  | multi (w1 w2 : Writer)
  | custom (name : String)
  deriving DecidableEq, Repr

/-- Go: `LevelHooks` (declared outside these sources), given by what its
method `Fire(level, entry)` returns: `some err` or `none` for nil. -/
structure LevelHooks where
  Fire : Level → Entry → Option Error

/-- Go: `type Formatter interface { Format(*Entry) ([]byte, error) }`. -/
structure Formatter where
  Format : Entry → Except Error Bytes

/-- Go: `type exitFunc func(int)`: `os.Exit`, which ends the process, or a
replacement installed by the caller, which returns. -/
inductive exitFunc where
  | osExit
  | custom (name : String)
  deriving DecidableEq, Repr

/-- Go: `type Logger struct`.  The mutex `mu` and `entryPool` are left out:
the embedding is sequential, and a pooled `Entry` is indistinguishable from
`NewEntry(logger)` (no method writes to a pooled object other than
`releaseEntry`, which resets `Data` to an empty map). -/
structure Logger where
  Out : Writer
  Hooks : LevelHooks
  Formatter : Formatter
  ReportCaller : Bool
  Level : Level
  ExitFunc : Option exitFunc

/-- Package-level variables of `exported.go` (`std` is kept in `World`). -/
structure Globals where
  timeFlag : String
  file : Option String
  localWriter : Writer
  nameStr : String
  timeStr : String
  pathStr : String
  chooseFileFlg : Bool
  deriving DecidableEq, Repr

/-- The mutable state the package works on: the `Logger` objects by address
and the package-level variables. -/
structure World where
  logger : LoggerRef → Logger
  g : Globals

/-- Address of the package-level `std` logger. -/
def std : LoggerRef := 0

/-- Store `lg` at address `r`. -/
def World.setLogger (w : World) (r : LoggerRef) (lg : Logger) : World :=
  { w with logger := fun r2 => if r2 = r then lg else w.logger r2 }

/-- What the surroundings answer during one call: the clock, the stack
walker, the file system, the sink and `fmt`. -/
structure Env where
  /-- Go: `time.Now()` as read by `Entry.log` -/
  now : Time
  /-- Go: `getCaller()` -/
  getCaller : Option Frame
  /-- Go: `time.Now().Format(layout)` -/
  nowFormat : String → String
  /-- Go: `os.OpenFile(name, os.O_CREATE|os.O_WRONLY|os.O_APPEND, 0666)`: `none`
  when the file is opened, `some err` otherwise -/
  openFile : String → Option Error
  /-- Go: `Write(p)` on a non-nil writer: `some err` when it fails, `none` when
  it succeeds -/
  write : Writer → Bytes → Option Error
  /-- Go: `fmt.Sprint(args...)` -/
  Sprint : List Value → String
  /-- Go: `fmt.Sprintf(format, args...)` -/
  Sprintf : String → List Value → String
  /-- Go: `fmt.Sprintln(args...)` -/
  Sprintln : List Value → String

/-- A value passed to `panic`. -/
inductive PanicValue where
  /-- Go: `panic(&entry)` in `Entry.log` -/
  | entry (e : Entry)
  /-- Go: `panic(fmt.Sprint(args...))` in `Entry.Panic` -/
  | message (msg : String)
  /-- Go: `panic(err)` in `SetOutputFile` -/
  | error (err : Error)
  /-- the run-time panic raised by a method call on a nil interface -/
  | nilDereference
  deriving DecidableEq, Repr

/-- How a call ends. -/
inductive Outcome where
  | returned
  | panicked (v : PanicValue)
  | exited (code : Int)
  deriving DecidableEq, Repr

/-- The calls a log operation makes on its collaborators, in program order. -/
inductive Event where
  /-- Go: `entry.Logger.Hooks.Fire(level, entry)` -/
  | fire (level : Level) (entry : Entry)
  /-- Go: `entry.Logger.Formatter.Format(entry)` -/
  | format (entry : Entry)
  /-- Go: `entry.Logger.Out.Write(p)` -/
  | write (out : Writer) (p : Bytes)
  /-- Go: `fmt.Fprintf(os.Stderr, ...)` -/
  | stderr (msg : String)
  /-- Go: `os.OpenFile(name, ...)` -/
  | openFile (name : String)
  /-- Go: `runHandlers()` -/
  | runHandlers
  /-- Go: `logger.ExitFunc(code)` -/
  | exit (code : Int)
  deriving DecidableEq, Repr

/-- Result of running a piece of the program: final state, calls made, and
how it ended. -/
structure Run where
  world : World
  trace : List Event
  outcome : Outcome

/-- A call that does nothing and returns. -/
def Run.skip (w : World) : Run := ⟨w, [], .returned⟩

/-- Sequential composition `r; k`: `k` runs only if `r` returned. -/
def Run.andThen (r : Run) (k : World → Run) : Run :=
  match r.outcome with
  | .returned =>
    let r2 := k r.world
    ⟨r2.world, r.trace ++ r2.trace, r2.outcome⟩
  | _ => r

/-- The struct literal of `New`: `&Logger{Out: os.Stderr, Formatter:
new(TextFormatter), Hooks: make(LevelHooks), Level: InfoLevel, ExitFunc:
os.Exit, ReportCaller: false}`, given the default `TextFormatter` (declared
outside these sources). -/
def New.value (textFormatter : Formatter) : Logger :=
  { Out := .stderr, Formatter := textFormatter, Hooks := ⟨fun _ _ => none⟩,
    Level := InfoLevel, ExitFunc := some .osExit, ReportCaller := false }

/-- Go: `func New() *Logger`: assigns the package-level
`localWriter = os.Stderr` and returns a pointer to a new `Logger`; `r` is the
address of the new object. -/
def New (textFormatter : Formatter) (w : World) (r : LoggerRef) : World :=
  let w1 : World := { w with g := { w.g with localWriter := .stderr } }
  w1.setLogger r (New.value textFormatter)

/-- State after package initialisation: every package variable holds its zero
value, then `std = New()` has run. -/
def World.init (textFormatter : Formatter) : World :=
  New textFormatter
    { logger := fun _ => New.value textFormatter,
      g := { timeFlag := "", file := none, localWriter := .nil, nameStr := "",
             timeStr := "", pathStr := "", chooseFileFlg := false } }
    std

/-- Go: `func (logger *Logger) level() Level` (an atomic load). -/
def Logger.level (lg : Logger) : logger.Level := lg.Level

/-- Go: `func (logger *Logger) SetLevel(level Level)`. -/
def Logger.SetLevel (w : World) (lg : LoggerRef) (level : logger.Level) : World :=
  w.setLogger lg { w.logger lg with Level := level }

/-- Go: `func (logger *Logger) IsLevelEnabled(level Level) bool`. -/
def Logger.IsLevelEnabled (lg : Logger) (level : logger.Level) : Bool :=
  decide (lg.level ≥ level)

/-- Go: `func (logger *Logger) SetOutput(output io.Writer)`. -/
def Logger.SetOutput (w : World) (lg : LoggerRef) (output : Writer) : World :=
  let w1 : World := { w with g := { w.g with localWriter := output } }
  w1.setLogger lg { w1.logger lg with Out := output }

/-- Go: `func (logger *Logger) ReplaceHooks(hooks LevelHooks) LevelHooks`: the
state after the call and the hooks returned. -/
def Logger.ReplaceHooks (w : World) (lg : LoggerRef) (hooks : LevelHooks) :
    World × LevelHooks :=
  (w.setLogger lg { w.logger lg with Hooks := hooks }, (w.logger lg).Hooks)

/-- Worker of `ReplaceAll`: `skip` counts the runes of a matched occurrence
still to be dropped. -/
def replaceAllAux (old new : List Char) : Nat → List Char → List Char
  | _, [] => []
  | skip + 1, _ :: cs => replaceAllAux old new skip cs
  | 0, c :: cs =>
    if old.isPrefixOf (c :: cs) then new ++ replaceAllAux old new (old.length - 1) cs
    else c :: replaceAllAux old new 0 cs

/-- Go: `strings.ReplaceAll(s, old, new)` for a non-empty `old`: the
non-overlapping occurrences are replaced from left to right. -/
def ReplaceAll (s old new : String) : String :=
  String.mk (replaceAllAux old.data new.data 0 s.data)

/-- The token replaced in the name template. -/
def timeToken : String := "$\x7btime\x7d"

/-- Go: `func SetOutputFile(path string, nameFormatter string, timeFormatter string)`.
The `file` assigned by `file, err := os.OpenFile(...)` is a variable local to
the function; the package-level `file` is not written. -/
def SetOutputFile (env : Env) (w : World) (path nameFormatter timeFormatter : String) : Run :=
  let timeFlag := env.nowFormat timeFormatter
  let w1 : World := { w with g := { w.g with timeFlag := timeFlag } }
  let name := path ++ ReplaceAll nameFormatter timeToken timeFlag
  match env.openFile name with
  | some err => ⟨w1, [.openFile name], .panicked (.error err)⟩
  | none =>
    let file : Option String := some name
    let w2 :=
      if (w1.logger std).Out ≠ .nil then
        match file with
        | some f => Logger.SetOutput w1 std (.multi (.file f) w1.g.localWriter)
        | none => Logger.SetOutput w1 std (.multi .nil .stdout)
      else Logger.SetOutput w1 std (.file name)
    let w3 : World := { w2 with g := { w2.g with pathStr := path, nameStr := nameFormatter,
                                                 timeStr := timeFormatter, chooseFileFlg := true } }
    ⟨w3, [.openFile name], .returned⟩

/-- Go: `func chooseFile()`.  `w.g.file` is the package-level `file`. -/
def chooseFile (env : Env) (w : World) : Run :=
  if w.g.chooseFileFlg then
    let timeF := env.nowFormat w.g.timeStr
    if w.g.file ≠ none ∧ timeF ≠ w.g.timeFlag then
      SetOutputFile env w w.g.pathStr w.g.nameStr w.g.timeStr
    else Run.skip w
  else Run.skip w

/-! ## The log pipeline (`entry.go`, `logger.go`) -/

/-- A Go `string` passed as an `interface{}` argument. -/
def stringValue (s : String) : Value := ⟨some (.Other "string"), s⟩

/-- Go: `func (entry *Entry) fireHooks()`. -/
def Entry.fireHooks (w : World) (entry : Entry) : Run :=
  match (w.logger entry.Logger).Hooks.Fire entry.Level entry with
  | some err =>
    ⟨w, [.fire entry.Level entry, .stderr ("Failed to fire hook: " ++ err ++ "\n")], .returned⟩
  | none => ⟨w, [.fire entry.Level entry], .returned⟩

/-- Go: `func (entry *Entry) write()`. -/
def Entry.write (env : Env) (w : World) (entry : Entry) : Run :=
  (chooseFile env w).andThen fun w1 =>
    let lg := w1.logger entry.Logger
    match lg.Formatter.Format entry with
    | .error err =>
      ⟨w1, [.format entry, .stderr ("Failed to obtain reader, " ++ err ++ "\n")], .returned⟩
    | .ok serialized =>
      if lg.Out = .nil then ⟨w1, [.format entry], .panicked .nilDereference⟩
      else
        match env.write lg.Out serialized with
        | some err =>
          ⟨w1, [.format entry, .write lg.Out serialized,
                .stderr ("Failed to write to log, " ++ err ++ "\n")], .returned⟩
        | none => ⟨w1, [.format entry, .write lg.Out serialized], .returned⟩

/-- The assignments at the head of `Entry.log`, up to and including the call
site lookup: the entry as the hooks receive it. -/
def Entry.finalize (env : Env) (w : World) (entry : Entry) (level : logger.Level)
    (field : Value) (msg : String) : Entry :=
  let entry := if entry.Time.IsZero then { entry with Time := env.now } else entry
  let entry := { entry with Level := level }
  let entry := if msg.length ≠ 0 then { entry with Message := msg } else entry
  let entry :=
    if field.typ ≠ none ∧ (field.typ.map GoType.Kind) = some Kind.Struct then
      { entry with Field := some field }
    else entry
  if (w.logger entry.Logger).ReportCaller then { entry with Caller := env.getCaller }
  else entry

/-- Go: `func (entry Entry) log(level Level, field interface{}, msg string)`. -/
def Entry.log (env : Env) (w : World) (entry : Entry) (level : logger.Level)
    (field : Value) (msg : String) : Run :=
  let entry := entry.finalize env w level field msg
  (entry.fireHooks w).andThen fun w1 =>
    let entry := { entry with Buffer := some "" }
    (entry.write env w1).andThen fun w2 =>
      let entry := { entry with Buffer := none }
      if level ≤ PanicLevel then ⟨w2, [], .panicked (.entry entry)⟩
      else Run.skip w2

/-- Go: `func (entry *Entry) Log(level Level, field interface{}, args ...interface{})`. -/
def Entry.Log (env : Env) (w : World) (entry : Entry) (level : logger.Level)
    (field : Value) (args : List Value) : Run :=
  if (w.logger entry.Logger).IsLevelEnabled level then
    entry.log env w level field (env.Sprint args)
  else Run.skip w

/-- Go: `func (entry *Entry) Logf(level Level, field interface{}, format string, args ...interface{})`. -/
def Entry.Logf (env : Env) (w : World) (entry : Entry) (level : logger.Level)
    (field : Value) (format : String) (args : List Value) : Run :=
  if (w.logger entry.Logger).IsLevelEnabled level then
    entry.Log env w level field [stringValue (env.Sprintf format args)]
  else Run.skip w

/-- Go: `func (entry *Entry) sprintlnn(args ...interface{}) string`. -/
def Entry.sprintlnn (env : Env) (args : List Value) : String :=
  String.mk (env.Sprintln args).data.dropLast

/-- Go: `func (entry *Entry) Logln(level Level, field interface{}, args ...interface{})`. -/
def Entry.Logln (env : Env) (w : World) (entry : Entry) (level : logger.Level)
    (field : Value) (args : List Value) : Run :=
  if (w.logger entry.Logger).IsLevelEnabled level then
    entry.Log env w level field [stringValue (Entry.sprintlnn env args)]
  else Run.skip w

/-- Go: `func (logger *Logger) Exit(code int)`; `runHandlers` is declared
outside these sources and is recorded as a call. -/
def Logger.Exit (w : World) (lg : LoggerRef) (code : Int) : Run :=
  let l := w.logger lg
  match l.ExitFunc with
  | none =>
    ⟨w.setLogger lg { l with ExitFunc := some .osExit }, [.runHandlers, .exit code],
      .exited code⟩
  | some .osExit => ⟨w, [.runHandlers, .exit code], .exited code⟩
  | some (.custom _) => ⟨w, [.runHandlers, .exit code], .returned⟩

/-- Go: `func (logger *Logger) newEntry() *Entry`. -/
def Logger.newEntry (lg : LoggerRef) : Entry := NewEntry lg

/-- Go: `func (logger *Logger) Log(level Level, field interface{}, args ...interface{})`. -/
def Logger.Log (env : Env) (w : World) (lg : LoggerRef) (level : logger.Level)
    (field : Value) (args : List Value) : Run :=
  if (w.logger lg).IsLevelEnabled level then
    (Logger.newEntry lg).Log env w level field args
  else Run.skip w

/-- Go: `func (logger *Logger) Logf(level Level, field interface{}, format string, args ...interface{})`. -/
def Logger.Logf (env : Env) (w : World) (lg : LoggerRef) (level : logger.Level)
    (field : Value) (format : String) (args : List Value) : Run :=
  if (w.logger lg).IsLevelEnabled level then
    (Logger.newEntry lg).Logf env w level field format args
  else Run.skip w

/-- Go: `func (logger *Logger) Logln(level Level, field interface{}, args ...interface{})`. -/
def Logger.Logln (env : Env) (w : World) (lg : LoggerRef) (level : logger.Level)
    (field : Value) (args : List Value) : Run :=
  if (w.logger lg).IsLevelEnabled level then
    (Logger.newEntry lg).Logln env w level field args
  else Run.skip w

/-- Go: `func (entry *Entry) Fatal(field interface{}, args ...interface{})`. -/
def Entry.Fatal (env : Env) (w : World) (entry : Entry) (field : Value)
    (args : List Value) : Run :=
  (entry.Log env w FatalLevel field args).andThen fun w1 => Logger.Exit w1 entry.Logger 1

/-- Go: `func (entry *Entry) Fatalf(field interface{}, format string, args ...interface{})`. -/
def Entry.Fatalf (env : Env) (w : World) (entry : Entry) (field : Value) (format : String)
    (args : List Value) : Run :=
  (entry.Logf env w FatalLevel field format args).andThen fun w1 =>
    Logger.Exit w1 entry.Logger 1

/-- Go: `func (entry *Entry) Fatalln(field interface{}, args ...interface{})`. -/
def Entry.Fatalln (env : Env) (w : World) (entry : Entry) (field : Value)
    (args : List Value) : Run :=
  (entry.Logln env w FatalLevel field args).andThen fun w1 => Logger.Exit w1 entry.Logger 1

/-- Go: `func (logger *Logger) Fatal(field interface{}, args ...interface{})`. -/
def Logger.Fatal (env : Env) (w : World) (lg : LoggerRef) (field : Value)
    (args : List Value) : Run :=
  (Logger.Log env w lg FatalLevel field args).andThen fun w1 => Logger.Exit w1 lg 1

/-- Go: `func (logger *Logger) Fatalf(field interface{}, format string, args ...interface{})`. -/
def Logger.Fatalf (env : Env) (w : World) (lg : LoggerRef) (field : Value) (format : String)
    (args : List Value) : Run :=
  (Logger.Logf env w lg FatalLevel field format args).andThen fun w1 => Logger.Exit w1 lg 1

/-- Go: `func (logger *Logger) Fatalln(field interface{}, args ...interface{})`. -/
def Logger.Fatalln (env : Env) (w : World) (lg : LoggerRef) (field : Value)
    (args : List Value) : Run :=
  (Logger.Logln env w lg FatalLevel field args).andThen fun w1 => Logger.Exit w1 lg 1

/-- Go: `func (entry *Entry) Panic(field interface{}, args ...interface{})`. -/
def Entry.Panic (env : Env) (w : World) (entry : Entry) (field : Value)
    (args : List Value) : Run :=
  (entry.Log env w PanicLevel field args).andThen fun w1 =>
    ⟨w1, [], .panicked (.message (env.Sprint args))⟩

/-- Go: `func (logger *Logger) Panic(field interface{}, args ...interface{})`. -/
def Logger.Panic (env : Env) (w : World) (lg : LoggerRef) (field : Value)
    (args : List Value) : Run :=
  Logger.Log env w lg PanicLevel field args

/-- The entry as `Format` receives it inside `Entry.log`: finalized, with the
pooled buffer attached. -/
def Entry.prepared (env : Env) (w : World) (entry : Entry) (level : logger.Level)
    (field : Value) (msg : String) : Entry :=
  { entry.finalize env w level field msg with Buffer := some "" }

/-- The value `Entry.log` passes to `panic`: the finalized entry, `Buffer` reset to nil. -/
def Entry.raised (env : Env) (w : World) (entry : Entry) (level : logger.Level)
    (field : Value) (msg : String) : Entry :=
  { entry.finalize env w level field msg with Buffer := none }

/-- The event is a call of `Hooks.Fire`. -/
def Event.isFire : Event → Bool
  | .fire _ _ => true
  | _ => false

/-- The event is a call of `Formatter.Format`. -/
def Event.isFormat : Event → Bool
  | .format _ => true
  | _ => false

/-- The event is a call of `Out.Write`. -/
def Event.isWrite : Event → Bool
  | .write _ _ => true
  | _ => false

/-- The event is a call of the exit function. -/
def Event.isExit : Event → Bool
  | .exit _ => true
  | _ => false

/-- The event is the call of `runHandlers`. -/
def Event.isRunHandlers : Event → Bool
  | .runHandlers => true
  | _ => false

/-! ## Reserved keys (`formatter.go`) -/

def FieldKeyMsg : String := "message"
def FieldKeyLevel : String := "level"
def FieldKeyTime : String := "@timestamp"
def FieldKeyLoggorError : String := "error"
def FieldKeyFunc : String := "func"
def FieldKeyFile : String := "file"

/-- Go: `FieldMap` (declared outside these sources), given by its method
`resolve`, which names the key under which a reserved field is rendered. -/
structure FieldMap where
  resolve : String → String

/-- The block `if v, ok := data[key]; ok { data["fields."+key] = v; delete(data, key) }`. -/
def moveClash (data : Fields) (key : String) : Fields :=
  match data.get key with
  | some v => (data.set ("fields." ++ key) v).delete key
  | none => data

/-- The block `if v, ok := data[key]; ok { data["fields."+key] = v }`. -/
def copyClash (data : Fields) (key : String) : Fields :=
  match data.get key with
  | some v => data.set ("fields." ++ key) v
  | none => data

/-- Go: `func prefixFieldClashes(data Fields, fieldMap FieldMap, reportCaller bool)`;
the result is the content of the map `data` after the call. -/
def prefixFieldClashes (data : Fields) (fieldMap : FieldMap) (reportCaller : Bool) : Fields :=
  let timeKey := fieldMap.resolve FieldKeyTime
  let data := moveClash data timeKey
  let msgKey := fieldMap.resolve FieldKeyMsg
  let data := moveClash data msgKey
  let levelKey := fieldMap.resolve FieldKeyLevel
  let data := moveClash data levelKey
  let loggerErrKey := fieldMap.resolve FieldKeyLoggorError
  let data := moveClash data loggerErrKey
  if reportCaller then
    let funcKey := fieldMap.resolve FieldKeyFunc
    let data := copyClash data funcKey
    let fileKey := fieldMap.resolve FieldKeyFile
    copyClash data fileKey
  else data

/-- A field map whose `resolve` returns every key unchanged. -/
def FieldMap.default : FieldMap := ⟨fun k => k⟩

/-! ## Predicates used in the statements -/

/-- The value a field set contributes under key `k` when it is merged by
`WithFields`: its binding for `k`, unless that value is function-shaped. -/
def Fields.stored (fields : Fields) (k : String) : Option Value :=
  (fields.get k).filter (fun v => !isErrField v)

/-- The heap in which a new map object holds `e.Data` and a new struct holds
the other fields of `e` and refers to that map, with the pointer to the
struct: what a builder that builds `e` without touching any existing object
leaves behind. -/
def Heap.alloc (h : Heap) (e : Entry) : Heap × Ptr :=
  (⟨h.maps ++ [e.Data], h.objs ++ [e.store h.maps.length]⟩, h.objs.length)

/-- Outcome `r` of a pointer-level builder run in heap `h`: it returns a
pointer to a newly allocated struct that reads as `built`; the map of the new
struct is a newly allocated map object, referred to by no struct of `h`; and
every struct and every map object of `h` is as it was. -/
def Heap.Built (h : Heap) (r : Option (Heap × Ptr)) (built : Entry) : Prop :=
  ∃ h2 p2, r = some (h2, p2) ∧ h.objs.get? p2 = none ∧ h2.deref p2 = some built ∧
    (∀ o, h2.objs.get? p2 = some o → h.maps.get? o.Data = none) ∧
    (∀ q o, h.objs.get? q = some o → h2.objs.get? q = some o) ∧
    (∀ m d, h.maps.get? m = some d → h2.maps.get? m = some d)

/-- The resolved keys whose clash `prefixFieldClashes` moves and deletes:
`@timestamp`, `message`, `level`, `error`, in the order they are handled. -/
def reservedMoved (fieldMap : FieldMap) : List String :=
  [fieldMap.resolve FieldKeyTime, fieldMap.resolve FieldKeyMsg,
   fieldMap.resolve FieldKeyLevel, fieldMap.resolve FieldKeyLoggorError]

/-- The resolved keys handled only when `reportCaller` is set: `func`, `file`. -/
def reservedCopied (fieldMap : FieldMap) (reportCaller : Bool) : List String :=
  if reportCaller then [fieldMap.resolve FieldKeyFunc, fieldMap.resolve FieldKeyFile] else []

/-- The reserved keys of a call: the four resolved keys above and, when
`reportCaller` is true, the resolved `func` and `file` keys. -/
def reservedKeys (fieldMap : FieldMap) (reportCaller : Bool) : List String :=
  reservedMoved fieldMap ++ reservedCopied fieldMap reportCaller

/-- A call ends by running the shutdown handlers and then invoking the exit
function with code 1: these are the last two calls made, and neither occurs
earlier, so every hook, formatter and sink call precedes them. -/
def Run.EndsWithExit1 (r : Run) : Prop :=
  ∃ pre, r.trace = pre ++ [Event.runHandlers, Event.exit 1] ∧
    ∀ ev ∈ pre, ev.isExit = false ∧ ev.isRunHandlers = false

/-- A call made no calls to the exit function or the shutdown handlers, changed
no state and returned. -/
def Run.Quiet (r : Run) (w : World) : Prop :=
  r.world = w ∧ r.outcome = Outcome.returned ∧
    ∀ ev ∈ r.trace, ev.isExit = false ∧ ev.isRunHandlers = false

/-- The exit function of the logger is `os.Exit`, set or defaulted. -/
def Logger.exitsProcess (lg : Logger) : Bool :=
  match lg.ExitFunc with
  | some (.custom _) => false
  | _ => true

/-- The diagnostic `fireHooks` prints for the result `r` of `Hooks.Fire`:
one line on standard error for an error, nothing for nil. -/
def hookDiagnostic (r : Option Error) : List Event :=
  match r with
  | some err => [Event.stderr ("Failed to fire hook: " ++ err ++ "\n")]
  | none => []

/-- The rejection messages of a field set: `can not add field "k"` for each
key `k` whose value is function-shaped, in the order `range` visits them. -/
def rejectionMessages (quote : String → String) (fields : List (String × Value)) :
    List String :=
  (fields.filter (fun kv => isErrField kv.2)).map (fun kv => cannotAdd quote kv.1)

/-- The note the specification describes: the earlier note `n0` when it is
non-empty, then one rejection message per rejected key, all joined by ", ". -/
def expectedNote (n0 : String) (messages : List String) : String :=
  ", ".intercalate ((if n0 = "" then [] else [n0]) ++ messages)

/-! ## Sample collaborators and inputs -/

/-- Hooks whose `Fire` returns an error. -/
def failingHooks : LevelHooks := ⟨fun _ _ => some "hook down"⟩

/-- Surroundings in which every sink write fails and nothing else does. -/
def brokenSinkEnv : Env :=
  { now := 100, getCaller := none, nowFormat := fun _ => "", openFile := fun _ => none,
    write := fun _ _ => some "disk full",
    Sprint := fun args => String.join (args.map Value.repr),
    Sprintf := fun format args => format ++ String.join (args.map Value.repr),
    Sprintln := fun args => String.join (args.map Value.repr) ++ "\n" }


/-- The nil `interface{}` value. -/
def nilV : Value := ⟨none, ""⟩

/-- A formatter that renders the level name and the message. -/
def sampleFormatter : Formatter :=
  ⟨fun e => .ok (Level.String e.Level ++ ": " ++ e.Message ++ "\n")⟩

/-- A formatter whose `Format` returns an error. -/
def failingFormatter : Formatter := ⟨fun _ => .error "unsupported"⟩

/-- Surroundings in which the clock reads tick 100 and formats as `stamp`, files
open and sink writes succeed. -/
def sampleEnv (stamp : String) : Env :=
  { now := 100, getCaller := none, nowFormat := fun _ => stamp, openFile := fun _ => none,
    write := fun _ _ => none,
    Sprint := fun args => String.join (args.map Value.repr),
    Sprintf := fun format args => format ++ String.join (args.map Value.repr),
    Sprintln := fun args => String.join (args.map Value.repr) ++ "\n" }

/-- The state after `SetOutputFile("/var/log/", "app-${time}.log", "200601021504")`
was called, right after package initialisation, when the formatted time was
"202401010000". -/
def rotatedWorld : World :=
  (SetOutputFile (sampleEnv "202401010000") (World.init sampleFormatter) "/var/log/"
    "app-$\x7btime\x7d.log" "200601021504").world

/-- A heap with one Entry, at address 0 (fields `{"user": "ann"}` in map 0,
time 5, a context and an earlier diagnostic note), and a second map object,
map 1, holding an `int` under "n" and a function under "cb". -/
def sampleHeap : Heap :=
  ⟨[Fields.make.set "user" (stringValue "ann"),
      (Fields.make.set "n" ⟨some (.Other "int"), "1"⟩).set "cb" ⟨some .Func, "f"⟩],
    [{ Logger := 0, Data := 0, Time := 5, Context := some "req-1", err := "earlier" }]⟩

/-- The Entry that address 0 of `sampleHeap` reads as. -/
def sampleEntry : Entry :=
  { Logger := 0, Data := Fields.make.set "user" (stringValue "ann"), Time := 5,
    Context := some "req-1", err := "earlier" }

/-- The state after `std.SetOutput(nil)` was called right after package
initialisation: the sink of the standard logger is the nil writer. -/
def nilSinkWorld : World :=
  Logger.SetOutput (World.init sampleFormatter) std Writer.nil

/-- An `int` value with the given rendering. -/
def intV (n : String) : Value := ⟨some (.Other "int"), n⟩

/-- A function value. -/
def funcV (n : String) : Value := ⟨some .Func, n⟩

/-- Go: `strconv.Quote` on text without characters that need escaping. -/
def goQuote (s : String) : String := "\"" ++ s ++ "\""

/-- The field set held by map 1 of `sampleHeap`: an `int` under "n" and a
function under "cb". -/
def sampleFields : Fields :=
  (Fields.make.set "n" (intV "1")).set "cb" (funcV "f")

/-! # Verified properties -/

/-! ## Levels -/

/-- C1: for each of the seven defined levels `L`, `ParseLevel(L.String())`
returns `L` with a nil error, and `String` yields the canonical lowercase
name: "warning" for Warn, the level's own name for the six others. -/
theorem ParseLevel_String_roundtrip (uni : Char → Char) (L : Level) (hL : L ∈ AllLevels) :
    ParseLevel uni L.String = Except.ok L ∧
    (PanicLevel.String = "panic" ∧ FatalLevel.String = "fatal" ∧
      ErrorLevel.String = "error" ∧ WarnLevel.String = "warning" ∧
      InfoLevel.String = "info" ∧ DebugLevel.String = "debug" ∧
      TraceLevel.String = "trace") := by
  refine ⟨?_, by decide⟩
  simp only [AllLevels, List.mem_cons, List.mem_singleton, List.not_mem_nil, or_false] at hL
  rcases hL with h | h | h | h | h | h | h <;> subst h <;> rfl

theorem ParseLevel_String_roundtrip_witness :
    WarnLevel ∈ AllLevels ∧ ParseLevel id WarnLevel.String = Except.ok WarnLevel :=
  ⟨by decide, (ParseLevel_String_roundtrip id WarnLevel (by decide)).1⟩

/-- C2: `ParseLevel(s)` returns an error exactly when the lower-cased `s` is
none of panic, fatal, error, warn, warning, info, debug, trace; on each of
these names it returns the matching level with a nil error ("warn" and
"warning" both give Warn); and `UnmarshalText` leaves `*level` as it was
whenever it returns an error. -/
theorem ParseLevel_error_iff (uni : Char → Char) (s : String) (level : Level) :
    ((∃ err, ParseLevel uni s = Except.error err) ↔
      ToLower uni s ∉
        ["panic", "fatal", "error", "warn", "warning", "info", "debug", "trace"]) ∧
    (ToLower uni s = "panic" → ParseLevel uni s = Except.ok PanicLevel) ∧
    (ToLower uni s = "fatal" → ParseLevel uni s = Except.ok FatalLevel) ∧
    (ToLower uni s = "error" → ParseLevel uni s = Except.ok ErrorLevel) ∧
    (ToLower uni s = "warn" → ParseLevel uni s = Except.ok WarnLevel) ∧
    (ToLower uni s = "warning" → ParseLevel uni s = Except.ok WarnLevel) ∧
    (ToLower uni s = "info" → ParseLevel uni s = Except.ok InfoLevel) ∧
    (ToLower uni s = "debug" → ParseLevel uni s = Except.ok DebugLevel) ∧
    (ToLower uni s = "trace" → ParseLevel uni s = Except.ok TraceLevel) ∧
    (∀ err, (Level.UnmarshalText uni level s).2 = some err →
      (Level.UnmarshalText uni level s).1 = level ∧
        ParseLevel uni s = Except.error err) := by
  refine ⟨?_, ?_, ?_, ?_, ?_, ?_, ?_, ?_, ?_, ?_⟩
  · simp only [ParseLevel, List.mem_cons, List.mem_singleton, List.not_mem_nil, or_false]
    constructor
    · rintro ⟨err, h⟩
      intro hmem
      rcases hmem with h1 | h1 | h1 | h1 | h1 | h1 | h1 | h1 <;>
        (rw [h1] at h; simp +decide at h)
    · intro hmem
      refine ⟨LevelError.notValidName s, ?_⟩
      have h1 : ToLower uni s ≠ "panic" := fun h => hmem (by simp [h])
      have h2 : ToLower uni s ≠ "fatal" := fun h => hmem (by simp [h])
      have h3 : ToLower uni s ≠ "error" := fun h => hmem (by simp [h])
      have h4 : ToLower uni s ≠ "warn" := fun h => hmem (by simp [h])
      have h5 : ToLower uni s ≠ "warning" := fun h => hmem (by simp [h])
      have h6 : ToLower uni s ≠ "info" := fun h => hmem (by simp [h])
      have h7 : ToLower uni s ≠ "debug" := fun h => hmem (by simp [h])
      have h8 : ToLower uni s ≠ "trace" := fun h => hmem (by simp [h])
      simp [h1, h2, h3, h4, h5, h6, h7, h8]
  all_goals try (intro h; simp only [ParseLevel, h]; rfl)
  · intro err h
    unfold Level.UnmarshalText at h ⊢
    cases hp : ParseLevel uni s with
    | error e => simp [hp] at h ⊢; exact h
    | ok l => simp [hp] at h

/-! ## Field maps -/

theorem lookup_filter_ne (l : List (String × Value)) (k k2 : String) :
    (l.filter (fun p => decide (p.1 ≠ k))).lookup k2 = if k2 = k then none else l.lookup k2 := by
  induction l with
  | nil => simp
  | cons p t ih =>
    obtain ⟨a, b⟩ := p
    simp only [ne_eq, decide_not] at ih ⊢
    by_cases h : a = k
    · subst h
      by_cases h2 : k2 = a
      · subst h2; simpa using ih
      · have : (k2 == a) = false := by simpa using h2
        simp [List.lookup_cons, this, ih, h2]
    · by_cases h2 : k2 = a
      · subst h2
        simp [List.filter_cons, h, List.lookup_cons]
      · have : (k2 == a) = false := by simpa using h2
        simp [List.filter_cons, h, List.lookup_cons, this, ih]

theorem lookup_none_of_not_mem (l : List (String × Value)) (k : String)
    (h : k ∉ l.map Prod.fst) : l.lookup k = none := by
  induction l with
  | nil => rfl
  | cons p t ih =>
    obtain ⟨a, b⟩ := p
    simp only [List.map_cons, List.mem_cons, not_or] at h
    have : (k == a) = false := by simpa using h.1
    simp [List.lookup_cons, this, ih h.2]

theorem Fields.get_make (k : String) : Fields.make.get k = none := rfl

theorem Fields.get_delete (data : Fields) (k k2 : String) :
    (data.delete k).get k2 = if k2 = k then none else data.get k2 := by
  simp only [Fields.get, Fields.delete]
  exact lookup_filter_ne data.entries k k2

theorem Fields.get_set (data : Fields) (k : String) (v : Value) (k2 : String) :
    (data.set k v).get k2 = if k2 = k then some v else data.get k2 := by
  by_cases h : k2 = k
  · subst h
    simp [Fields.get, Fields.set, List.lookup_cons]
  · have hb : (k2 == k) = false := by simpa using h
    have hd := Fields.get_delete data k k2
    simp only [Fields.get] at hd
    simp [Fields.get, Fields.set, List.lookup_cons, hb, h, hd]

/-- Merging a list of bindings with distinct keys, skipping the values `rej`
rejects: each key ends up with the accepted value the list binds it to,
or else with what the target map held. -/
theorem foldl_merge_get (rej : Value → Bool) (l : List (String × Value))
    (hl : (l.map Prod.fst).Nodup) (acc : Fields) (k : String) :
    (l.foldl (fun d kv => if rej kv.2 then d else d.set kv.1 kv.2) acc).get k
      = ((l.lookup k).filter (fun v => !rej v)).or (acc.get k) := by
  induction l generalizing acc with
  | nil => simp
  | cons p t ih =>
    obtain ⟨a, b⟩ := p
    simp only [List.map_cons, List.nodup_cons] at hl
    simp only [List.foldl_cons]
    rw [ih hl.2]
    by_cases h : k = a
    · subst h
      rw [lookup_none_of_not_mem t k hl.1]
      cases hr : rej b <;> simp [List.lookup_cons, Fields.get_set, Option.filter, hr]
    · have hb : (k == a) = false := by simpa using h
      cases hr : rej b <;> simp [List.lookup_cons, Fields.get_set, hb, h]

theorem copyInto_get (dst src : Fields) (k : String) :
    (copyInto dst src).get k = (src.get k).or (dst.get k) := by
  have h := foldl_merge_get (fun _ => false) src.entries src.nodup dst k
  simp only [Bool.false_eq_true, if_false, Bool.not_false] at h
  unfold copyInto Fields.get
  rw [show (fun (data : Fields) (kv : String × Value) => data.set kv.1 kv.2)
        = (fun d kv => d.set kv.1 kv.2) from rfl]
  simp only [Fields.get] at h
  rw [h]
  cases List.lookup k src.entries <;> simp [Option.filter]

theorem copyInto_make_get (src : Fields) (k : String) :
    (copyInto Fields.make src).get k = src.get k := by
  rw [copyInto_get, Fields.get_make]
  cases src.get k <;> rfl

theorem WithFields_step_fst (quote : String → String) (entryErr : String)
    (l : List (String × Value)) (d : Fields) (s : String) :
    (l.foldl (WithFields.step quote entryErr) (d, s)).1
      = l.foldl (fun d kv => if isErrField kv.2 then d else d.set kv.1 kv.2) d := by
  induction l generalizing d s with
  | nil => rfl
  | cons p t ih =>
    have h1 : (WithFields.step quote entryErr (d, s) p).1
        = (if isErrField p.2 then d else d.set p.1 p.2) := by
      unfold WithFields.step
      split_ifs <;> rfl
    simp only [List.foldl_cons]
    rw [← h1]
    exact ih (WithFields.step quote entryErr (d, s) p).1 (WithFields.step quote entryErr (d, s) p).2

/-- The field mapping built by `WithFields`, key by key. -/
theorem WithFields_get (quote : String → String) (e : Entry) (fields : Fields) (k : String) :
    (e.WithFields quote fields).Data.get k = (fields.stored k).or (e.Data.get k) := by
  unfold Entry.WithFields
  simp only
  rw [WithFields_step_fst, foldl_merge_get isErrField fields.entries fields.nodup,
    copyInto_make_get]
  rfl

/-! ## Builders -/

theorem Fields.stored_eq_get (fields : Fields) (k : String)
    (h : ∀ v, fields.get k = some v → isErrField v = false) :
    fields.stored k = fields.get k := by
  unfold Fields.stored
  cases hg : fields.get k with
  | none => rfl
  | some v => simp [Option.filter, h v hg]

/-- C4 (as stated, refuted): with `f1 = {"a": 1}` and `f2 = {"a": <func>}`,
both field sets bind "a", yet `e.WithFields(f1).WithFields(f2)` holds `f1`'s
value under "a", not `f2`'s. -/
theorem WithFields_precedence_counterexample :
    (Fields.make.set "a" (intV "1")).get "a" = some (intV "1") ∧
    (Fields.make.set "a" (funcV "f")).get "a" = some (funcV "f") ∧
    (((NewEntry 0).WithFields goQuote (Fields.make.set "a" (intV "1"))).WithFields goQuote
        (Fields.make.set "a" (funcV "f"))).Data.get "a" = some (intV "1") := by
  decide

/-- C4 (amended): the field mapping of `e.WithFields(f1).WithFields(f2)` is the
union of `e`'s fields and the bindings of `f1` and `f2` whose value is not
function-shaped; on a shared key the stored binding of `f2` wins over that of
`f1`, which wins over `e`'s.  When neither field set holds a function-shaped
value this is the union of `e`, `f1` and `f2` with `f2` taking precedence. -/
theorem WithFields_chain_union (quote : String → String) (e : Entry) (f1 f2 : Fields)
    (k : String) :
    ((e.WithFields quote f1).WithFields quote f2).Data.get k
        = (f2.stored k).or ((f1.stored k).or (e.Data.get k)) ∧
    ((∀ v, f1.get k = some v → isErrField v = false) →
      (∀ v, f2.get k = some v → isErrField v = false) →
      ((e.WithFields quote f1).WithFields quote f2).Data.get k
        = (f2.get k).or ((f1.get k).or (e.Data.get k))) := by
  have h : ((e.WithFields quote f1).WithFields quote f2).Data.get k
      = (f2.stored k).or ((f1.stored k).or (e.Data.get k)) := by
    rw [WithFields_get, WithFields_get]
  refine ⟨h, fun h1 h2 => ?_⟩
  rw [h, Fields.stored_eq_get f1 k h1, Fields.stored_eq_get f2 k h2]

theorem get?_append_old {α : Type} (l : List α) (x y : α) (i : Nat)
    (h : l.get? i = some y) : (l ++ [x]).get? i = some y := by
  simp only [List.get?_eq_getElem?] at *
  have hlt : i < l.length := by
    by_contra hc
    rw [List.getElem?_eq_none (Nat.le_of_not_lt hc)] at h
    exact absurd h (by simp)
  rw [List.getElem?_append_left hlt]
  exact h

theorem Entry.load_store (e : Entry) (ref : MapRef) : (e.store ref).load e.Data = e := by
  cases e
  rfl

theorem Heap.built_alloc (h : Heap) (e : Entry) : h.Built (some (h.alloc e)) e := by
  refine ⟨(h.alloc e).1, (h.alloc e).2, rfl, ?_, ?_, ?_, ?_, ?_⟩
  · simp [Heap.alloc]
  · have hd : (e.store h.maps.length).Data = h.maps.length := rfl
    simp [Heap.deref, Heap.alloc, hd, Entry.load_store]
  · intro o ho
    simp only [Heap.alloc, List.get?_eq_getElem?, List.getElem?_concat_length,
      Option.some.injEq] at ho
    subst ho
    simp [Entry.store]
  · intro q o hq
    exact get?_append_old _ _ _ _ hq
  · intro m d hm
    exact get?_append_old _ _ _ _ hm

/-! ### The pointer-level builders, statement by statement -/

theorem Heap.deref_some (h : Heap) (p : Ptr) (e : Entry) (hp : h.deref p = some e) :
    ∃ o d, h.objs.get? p = some o ∧ h.maps.get? o.Data = some d ∧ e = o.load d := by
  unfold Heap.deref at hp
  cases ho : h.objs.get? p with
  | none =>
    rw [ho] at hp
    exact absurd hp (by simp)
  | some o =>
    rw [ho] at hp
    simp only [] at hp
    cases hd : h.maps.get? o.Data with
    | none =>
      rw [hd] at hp
      exact absurd hp (by simp)
    | some d =>
      rw [hd] at hp
      simp only [Option.map_some', Option.some.injEq] at hp
      exact ⟨o, d, rfl, hd, hp.symm⟩

/-- Allocating a map leaves the content read through an older reference. -/
theorem Heap.readMap_makeMap (h : Heap) (m : MapRef) (d : Fields)
    (hd : h.maps.get? m = some d) : h.makeMap.1.readMap m = d := by
  simp only [Heap.makeMap, Heap.readMap, get?_append_old _ _ _ _ hd, Option.getD_some]

/-- A write through the reference to the newest map object changes that
object and nothing else. -/
theorem Heap.mapAssign_fresh (l : List Fields) (objs : List EntryObj) (d : Fields)
    (k : String) (v : Value) :
    Heap.mapAssign ⟨l ++ [d], objs⟩ l.length k v = ⟨l ++ [d.set k v], objs⟩ := by
  simp [Heap.mapAssign, Heap.readMap]

/-- The copy loop into the newest map object. -/
theorem Heap.copyLoop_fresh (l : List Fields) (objs : List EntryObj) (src : Fields)
    (d : Fields) :
    Heap.copyLoop ⟨l ++ [d], objs⟩ l.length src = ⟨l ++ [copyInto d src], objs⟩ := by
  unfold Heap.copyLoop copyInto
  generalize src.entries = xs
  induction xs generalizing d with
  | nil => rfl
  | cons q t ih =>
    simp only [List.foldl_cons]
    rw [Heap.mapAssign_fresh]
    exact ih _

theorem Heap.WithFields_step_fresh (quote : String → String) (entryErr : String)
    (l : List Fields) (objs : List EntryObj) (d : Fields) (s : String) (kv : String × Value) :
    Heap.WithFields.step quote entryErr l.length (⟨l ++ [d], objs⟩, s) kv
      = (⟨l ++ [(logger.WithFields.step quote entryErr (d, s) kv).1], objs⟩,
          (logger.WithFields.step quote entryErr (d, s) kv).2) := by
  unfold Heap.WithFields.step logger.WithFields.step
  simp only []
  split_ifs
  · rfl
  · rfl
  · rw [Heap.mapAssign_fresh]

/-- The loop over the incoming fields, writing into the newest map object. -/
theorem Heap.WithFields_loop_fresh (quote : String → String) (entryErr : String)
    (l : List Fields) (objs : List EntryObj) (xs : List (String × Value)) (d : Fields)
    (s : String) :
    xs.foldl (Heap.WithFields.step quote entryErr l.length) (⟨l ++ [d], objs⟩, s)
      = (⟨l ++ [(xs.foldl (logger.WithFields.step quote entryErr) (d, s)).1], objs⟩,
          (xs.foldl (logger.WithFields.step quote entryErr) (d, s)).2) := by
  induction xs generalizing d s with
  | nil => rfl
  | cons q t ih =>
    simp only [List.foldl_cons]
    rw [Heap.WithFields_step_fresh]
    exact ih _ _

/-- Run on a receiver that reads as `e` and an argument map that reads as
`fields`, `WithFields` leaves the heap in which one new map and one new struct
hold what the value-level builder computes. -/
theorem Heap.WithFields_alloc (quote : String → String) (h : Heap) (p : Ptr) (e : Entry)
    (hp : h.deref p = some e) (fr : MapRef) (fields : Fields)
    (hf : h.maps.get? fr = some fields) :
    h.WithFields quote p fr = some (h.alloc (e.WithFields quote fields)) := by
  obtain ⟨o, d, ho, hd, rfl⟩ := Heap.deref_some h p e hp
  unfold Heap.WithFields
  rw [ho]
  simp only []
  rw [Heap.readMap_makeMap h _ d hd]
  simp only [Heap.makeMap]
  rw [Heap.copyLoop_fresh]
  have hr : Heap.readMap ⟨h.maps ++ [copyInto Fields.make d], h.objs⟩ fr = fields := by
    simp only [Heap.readMap, get?_append_old _ _ _ _ hf, Option.getD_some]
  rw [hr, Heap.WithFields_loop_fresh]
  rfl

/-- The map literal allocates one map object and touches nothing else. -/
theorem Heap.mapLiteral_eq (h : Heap) (key : String) (value : Value) :
    h.mapLiteral key value
      = (⟨h.maps ++ [Fields.make.set key value], h.objs⟩, h.maps.length) := by
  unfold Heap.mapLiteral Heap.makeMap
  simp only []
  rw [Heap.mapAssign_fresh]

/-- A receiver reads the same after a map object was allocated. -/
theorem Heap.deref_extend (h : Heap) (m : Fields) (p : Ptr) (e : Entry)
    (hp : h.deref p = some e) : Heap.deref ⟨h.maps ++ [m], h.objs⟩ p = some e := by
  obtain ⟨o, d, ho, hd, rfl⟩ := Heap.deref_some h p e hp
  unfold Heap.deref
  simp only []
  rw [ho]
  simp only []
  rw [get?_append_old _ _ _ _ hd]
  rfl

/-- A builder outcome that is as required relative to the heap with one more
map object is as required relative to the heap without it. -/
theorem Heap.Built_extend (h : Heap) (m : Fields) (r : Option (Heap × Ptr)) (built : Entry)
    (hb : Heap.Built ⟨h.maps ++ [m], h.objs⟩ r built) : h.Built r built := by
  obtain ⟨h2, p2, hr, hnew, hd, hfresh, hobjs, hmaps⟩ := hb
  refine ⟨h2, p2, hr, hnew, hd, ?_, hobjs, ?_⟩
  · intro o ho
    have hn := hfresh o ho
    simp only [List.get?_eq_getElem?, List.getElem?_eq_none_iff, List.length_append,
      List.length_singleton] at hn ⊢
    omega
  · intro i d hi
    exact hmaps i d (get?_append_old _ _ _ _ hi)

/-- Run on a receiver that reads as `e`, `WithField` leaves the heap in which
the map of the literal, one new map and one new struct were allocated; the new
struct holds what the value-level builder computes. -/
theorem Heap.WithField_built (quote : String → String) (h : Heap) (p : Ptr) (e : Entry)
    (hp : h.deref p = some e) (key : String) (value : Value) :
    h.Built (h.WithField quote p key value) (e.WithField quote key value) := by
  unfold Heap.WithField
  simp only []
  rw [Heap.mapLiteral_eq]
  simp only []
  apply Heap.Built_extend h (Fields.make.set key value)
  rw [Heap.WithFields_alloc quote _ p e (Heap.deref_extend h _ p e hp) h.maps.length
    (Fields.make.set key value) (by simp)]
  exact Heap.built_alloc _ _

theorem Heap.WithTime_alloc (h : Heap) (p : Ptr) (e : Entry) (hp : h.deref p = some e)
    (t : Time) : h.WithTime p t = some (h.alloc (e.WithTime t)) := by
  obtain ⟨o, d, ho, hd, rfl⟩ := Heap.deref_some h p e hp
  unfold Heap.WithTime
  rw [ho]
  simp only []
  rw [Heap.readMap_makeMap h _ d hd]
  simp only [Heap.makeMap]
  rw [Heap.copyLoop_fresh]
  rfl

theorem Heap.WithContext_alloc (h : Heap) (p : Ptr) (e : Entry) (hp : h.deref p = some e)
    (ctx : Context) : h.WithContext p ctx = some (h.alloc (e.WithContext ctx)) := by
  obtain ⟨o, d, ho, hd, rfl⟩ := Heap.deref_some h p e hp
  unfold Heap.WithContext
  rw [ho]
  simp only []
  rw [Heap.readMap_makeMap h _ d hd]
  simp only [Heap.makeMap]
  rw [Heap.copyLoop_fresh]
  rfl

/-- A builder outcome that satisfies `Heap.Built` returns a pointer other than
the receiver and leaves the receiver reading as before. -/
theorem Heap.Built.receiver (h : Heap) (p : Ptr) (e : Entry) (hp : h.deref p = some e)
    (r : Option (Heap × Ptr)) (built : Entry) (hb : h.Built r built) :
    ∃ h2 p2, r = some (h2, p2) ∧ p2 ≠ p ∧ h2.deref p = some e := by
  obtain ⟨h2, p2, hr, hnew, -, -, hobjs, hmaps⟩ := hb
  obtain ⟨o, d, ho, hd, rfl⟩ := Heap.deref_some h p e hp
  refine ⟨h2, p2, hr, ?_, ?_⟩
  · intro hc
    rw [hc, ho] at hnew
    exact absurd hnew (by simp)
  · unfold Heap.deref
    rw [hobjs p o ho]
    simp only []
    rw [hmaps _ d hd]
    rfl

/-- The predicate `Heap.Built` does not hold of a builder that writes the new
field into the receiver's own map object: run on `sampleHeap`, such a builder
would leave the receiver with a changed field mapping. -/
theorem Heap.Built_rejects_write_to_receiver :
    ¬ sampleHeap.Built
        (some ((sampleHeap.mapAssign 0 "n" (intV "1")).newStruct
          { Logger := 0, Data := 0, Time := 5, Context := some "req-1", err := "earlier" }))
        (sampleEntry.WithField goQuote "n" (intV "1")) := by
  intro hb
  obtain ⟨h2, p2, hr, -, -, -, -, hmaps⟩ := hb
  simp only [Option.some.injEq] at hr
  have h0 := hmaps 0 _
    (rfl : sampleHeap.maps.get? 0 = some (Fields.make.set "user" (stringValue "ann")))
  have h1 : h2 = ((sampleHeap.mapAssign 0 "n" (intV "1")).newStruct
      { Logger := 0, Data := 0, Time := 5, Context := some "req-1", err := "earlier" }).1 := by
    rw [hr]
  rw [h1] at h0
  revert h0
  decide

/-- C5 (as stated, refuted).  (1) `WithField("handler", <func>)` returns an
Entry that does not carry the new data: its field mapping has no key
"handler".  (2) After the exported variable `ErrorKey` was assigned "err",
`WithError(e1)` stores the error under "err" and not under "error", so it
differs from `WithField("error", e1)`. -/
theorem WithField_drops_function_counterexample :
    (isErrField (funcV "f") = true ∧
      ((NewEntry 0).WithField goQuote "handler" (funcV "f")).Data.get "handler" = none ∧
      ((NewEntry 0).WithField goQuote "handler" (funcV "f")).Data.len = 0) ∧
    (((NewEntry 0).WithError goQuote "err" (stringValue "e1")).Data.get "error" = none ∧
      ((NewEntry 0).WithField goQuote "error" (stringValue "e1")).Data.get "error"
        = some (stringValue "e1") ∧
      (NewEntry 0).WithError goQuote "err" (stringValue "e1")
        ≠ (NewEntry 0).WithField goQuote "error" (stringValue "e1")) := by
  decide

/-- C5 (amended): run on a pointer `p` whose Entry reads as `e` (and, for
`WithFields`, on a map reference `fr` whose map reads as `fields`), each
builder returns a pointer to a newly allocated Entry whose field mapping is a
newly allocated map object, and leaves every existing struct and map object as
it was, so `p` still reads as `e` afterwards (field mapping, time, context and
error note).  The new Entry keeps every key of `e` and stores each new field
whose value is not function-shaped (a function-shaped value is not stored).
`WithTime(t)` has `e`'s field mapping, `Time = t`, and `e`'s Context and error
note; `WithContext(c)` has `e`'s field mapping, `Context = c`, and `e`'s Time
and error note; `WithFields` keeps `e`'s Time and Context; `WithError(err)` is
`WithField(ErrorKey, err)` for the current value of `ErrorKey`, which is
`WithField("error", err)` while `ErrorKey` holds its initial value. -/
theorem builders_copy_on_write (quote : String → String) (h : Heap) (p : Ptr) (e : Entry)
    (hp : h.deref p = some e) (fr : MapRef) (fields : Fields)
    (hf : h.maps.get? fr = some fields) (key errorKey : String) (value err : Value)
    (t : Time) (ctx : Context) :
    (h.Built (h.WithField quote p key value) (e.WithField quote key value) ∧
      h.Built (h.WithFields quote p fr) (e.WithFields quote fields) ∧
      h.Built (h.WithTime p t) (e.WithTime t) ∧
      h.Built (h.WithContext p ctx) (e.WithContext ctx) ∧
      h.Built (h.WithError quote errorKey p err) (e.WithError quote errorKey err)) ∧
    (∀ r ∈ [h.WithField quote p key value, h.WithFields quote p fr, h.WithTime p t,
        h.WithContext p ctx, h.WithError quote errorKey p err],
      ∃ h2 p2, r = some (h2, p2) ∧ p2 ≠ p ∧ h2.deref p = some e) ∧
    ((∀ k, (e.WithFields quote fields).Data.get k = (fields.stored k).or (e.Data.get k)) ∧
      (∀ k, e.Data.has k = true → (e.WithFields quote fields).Data.has k = true) ∧
      (∀ k v, fields.get k = some v → isErrField v = false →
        (e.WithFields quote fields).Data.get k = some v) ∧
      (e.WithFields quote fields).Time = e.Time ∧
      (e.WithFields quote fields).Context = e.Context) ∧
    ((∀ k, e.Data.has k = true → (e.WithField quote key value).Data.has k = true) ∧
      (isErrField value = false → (e.WithField quote key value).Data.get key = some value) ∧
      (e.WithField quote key value).Time = e.Time ∧
      (e.WithField quote key value).Context = e.Context) ∧
    ((∀ k, (e.WithTime t).Data.get k = e.Data.get k) ∧ (e.WithTime t).Time = t ∧
      (e.WithTime t).Context = e.Context ∧ (e.WithTime t).err = e.err) ∧
    ((∀ k, (e.WithContext ctx).Data.get k = e.Data.get k) ∧ (e.WithContext ctx).Context = ctx ∧
      (e.WithContext ctx).Time = e.Time ∧ (e.WithContext ctx).err = e.err) ∧
    (e.WithError quote errorKey err = e.WithField quote errorKey err ∧
      h.WithError quote errorKey p err = h.WithField quote p errorKey err ∧
      e.WithError quote ErrorKey err = e.WithField quote "error" err ∧
      h.WithError quote ErrorKey p err = h.WithField quote p "error" err) := by
  have hkeep : ∀ (fs : Fields) (k : String), e.Data.has k = true →
      (e.WithFields quote fs).Data.has k = true := by
    intro fs k hk
    unfold Fields.has at *
    rw [WithFields_get]
    cases hs : fs.stored k with
    | none => simpa using hk
    | some v => simp
  have hnew : ∀ (fs : Fields) (k : String) (v : Value), fs.get k = some v →
      isErrField v = false → (e.WithFields quote fs).Data.get k = some v := by
    intro fs k v hg hv
    rw [WithFields_get]
    unfold Fields.stored
    simp [hg, Option.filter, hv]
  have hF1 : ∀ (k : String) (v : Value),
      h.Built (h.WithField quote p k v) (e.WithField quote k v) :=
    fun k v => Heap.WithField_built quote h p e hp k v
  have hF : h.Built (h.WithFields quote p fr) (e.WithFields quote fields) := by
    rw [Heap.WithFields_alloc quote h p e hp fr fields hf]
    exact Heap.built_alloc h _
  have hT : h.Built (h.WithTime p t) (e.WithTime t) := by
    rw [Heap.WithTime_alloc h p e hp t]
    exact Heap.built_alloc h _
  have hC : h.Built (h.WithContext p ctx) (e.WithContext ctx) := by
    rw [Heap.WithContext_alloc h p e hp ctx]
    exact Heap.built_alloc h _
  refine ⟨⟨hF1 _ _, hF, hT, hC, hF1 _ _⟩, ?_, ⟨?_, ?_, ?_, rfl, rfl⟩, ⟨?_, ?_, rfl, rfl⟩,
    ⟨?_, rfl, rfl, rfl⟩, ⟨?_, rfl, rfl, rfl⟩, rfl, rfl, rfl, rfl⟩
  · intro r hr
    simp only [List.mem_cons, List.mem_singleton, List.not_mem_nil, or_false] at hr
    rcases hr with rfl | rfl | rfl | rfl | rfl
    · exact Heap.Built.receiver h p e hp _ _ (hF1 _ _)
    · exact Heap.Built.receiver h p e hp _ _ hF
    · exact Heap.Built.receiver h p e hp _ _ hT
    · exact Heap.Built.receiver h p e hp _ _ hC
    · exact Heap.Built.receiver h p e hp _ _ (hF1 _ _)
  · intro k
    exact WithFields_get quote e fields k
  · exact hkeep fields
  · exact hnew fields
  · exact hkeep _
  · intro hv
    exact hnew _ key value (by simp [Fields.get_set, Fields.get_make]) hv
  · intro k
    exact copyInto_make_get e.Data k
  · intro k
    exact copyInto_make_get e.Data k

theorem builders_copy_on_write_witness :
    sampleHeap.deref 0 = some sampleEntry ∧
    sampleHeap.maps.get? 1 = some sampleFields ∧
    sampleHeap.Built (sampleHeap.WithFields goQuote 0 1)
      (sampleEntry.WithFields goQuote sampleFields) ∧
    (∃ h2 p2, sampleHeap.WithField goQuote 0 "k" (intV "1") = some (h2, p2) ∧ p2 ≠ 0 ∧
      h2.deref 0 = some sampleEntry) ∧
    (sampleEntry.WithFields goQuote sampleFields).Data.get "n" = some (intV "1") ∧
    (sampleEntry.WithFields goQuote sampleFields).Data.get "user" = some (stringValue "ann") ∧
    (sampleEntry.WithFields goQuote sampleFields).Data.get "cb" = none ∧
    (sampleEntry.WithTime 7).Time = 7 ∧
    (sampleHeap.WithFields goQuote 0 1).map (fun r => (r.2, r.1.deref r.2, r.1.deref 0))
      = some (1, some (sampleEntry.WithFields goQuote sampleFields), some sampleEntry) ∧
    (sampleHeap.WithField goQuote 0 "k" (intV "1")).map
        (fun r => (r.2, r.1.deref r.2, r.1.deref 0))
      = some (1, some (sampleEntry.WithField goQuote "k" (intV "1")), some sampleEntry) :=
  ⟨rfl, rfl,
    (builders_copy_on_write goQuote sampleHeap 0 sampleEntry rfl 1 sampleFields rfl "k" "error"
      (intV "1") (stringValue "e1") 7 none).1.2.1,
    (builders_copy_on_write goQuote sampleHeap 0 sampleEntry rfl 1 sampleFields rfl "k" "error"
      (intV "1") (stringValue "e1") 7 none).2.1 _ (by simp),
    (builders_copy_on_write goQuote sampleHeap 0 sampleEntry rfl 1 sampleFields rfl "k" "error"
      (intV "1") (stringValue "e1") 7 none).2.2.1.2.2.1 "n" (intV "1") (by decide) (by decide),
    by decide, by decide,
    (builders_copy_on_write goQuote sampleHeap 0 sampleEntry rfl 1 sampleFields rfl "k" "error"
      (intV "1") (stringValue "e1") 7 none).2.2.2.2.1.2.1,
    by decide, by decide⟩

/-- What `WithField` does with a function-shaped value: the field mapping is
`e`'s, and the note is the rejection message, appended to `e`'s note if any. -/
theorem WithField_rejected (quote : String → String) (e : Entry) (k : String) (v : Value)
    (hv : isErrField v = true) :
    (∀ k2, (e.WithField quote k v).Data.get k2 = e.Data.get k2) ∧
    (e.WithField quote k v).err
      = (if e.err ≠ "" then e.err ++ ", " ++ cannotAdd quote k else cannotAdd quote k) := by
  constructor
  · intro k2
    unfold Entry.WithField
    rw [WithFields_get]
    unfold Fields.stored
    by_cases h : k2 = k
    · subst h
      simp [Fields.get_set, Option.filter, hv]
    · simp [Fields.get_set, Fields.get_make, h, Option.filter]
  · simp only [Entry.WithField, Entry.WithFields, Fields.set, Fields.delete, Fields.make,
      WithFields.step, hv, List.filter_nil, List.foldl_cons, List.foldl_nil, if_true]
    split_ifs <;> rfl

/-- C6 (the code at the failing input): an Entry with an empty note receives
`WithFields` with two function-shaped values under "a" and "b".  Whichever key
`range` visits first, the note names only the key visited last: the message
for the other key is overwritten and the note does not contain it. -/
theorem WithFields_two_rejections_note :
    ((NewEntry 0).WithFields goQuote ⟨[("a", funcV "f"), ("b", funcV "g")], by decide⟩).err
        = ", can not add field \"b\"" ∧
    ¬ ((cannotAdd goQuote "a").data <:+:
        ((NewEntry 0).WithFields goQuote
          ⟨[("a", funcV "f"), ("b", funcV "g")], by decide⟩).err.data) ∧
    ((NewEntry 0).WithFields goQuote ⟨[("b", funcV "g"), ("a", funcV "f")], by decide⟩).err
        = ", can not add field \"a\"" ∧
    ¬ ((cannotAdd goQuote "b").data <:+:
        ((NewEntry 0).WithFields goQuote
          ⟨[("b", funcV "g"), ("a", funcV "f")], by decide⟩).err.data) := by
  decide

/-! ## Reserved keys -/

theorem fields_prefix_ne (k : String) : "fields." ++ k ≠ k := by
  intro h
  have h2 := congrArg String.length h
  simp only [String.length_append] at h2
  have h3 : "fields.".length = 7 := by decide
  omega

theorem fields_prefix_inj (a b : String) (h : "fields." ++ a = "fields." ++ b) : a = b := by
  have h2 := congrArg String.data h
  simp only [String.data_append] at h2
  exact String.ext (List.append_cancel_left h2)

theorem moveClash_get (data : Fields) (k k2 : String) :
    (moveClash data k).get k2 =
      match data.get k with
      | none => data.get k2
      | some v => if k2 = k then none else if k2 = "fields." ++ k then some v else data.get k2 := by
  unfold moveClash
  cases h : data.get k with
  | none => rfl
  | some v => simp only [Fields.get_delete, Fields.get_set]

theorem copyClash_get (data : Fields) (k k2 : String) :
    (copyClash data k).get k2 =
      match data.get k with
      | none => data.get k2
      | some v => if k2 = "fields." ++ k then some v else data.get k2 := by
  unfold copyClash
  cases h : data.get k with
  | none => rfl
  | some v => simp only [Fields.get_set]

theorem prefixFieldClashes_eq_foldl (data : Fields) (fieldMap : FieldMap) (reportCaller : Bool) :
    prefixFieldClashes data fieldMap reportCaller
      = (reservedCopied fieldMap reportCaller).foldl copyClash
          ((reservedMoved fieldMap).foldl moveClash data) := by
  cases reportCaller <;> rfl

/-- A key that is absent, and is not the prefixed form of a handled key,
stays absent through any sequence of move blocks. -/
theorem foldl_moveClash_absent (ks : List String) (d : Fields) (k : String)
    (hk : d.get k = none) (hne : ∀ r ∈ ks, "fields." ++ r ≠ k) :
    (ks.foldl moveClash d).get k = none := by
  induction ks generalizing d with
  | nil => exact hk
  | cons r rest ih =>
    simp only [List.foldl_cons]
    apply ih
    · rw [moveClash_get]
      have h1 : k ≠ "fields." ++ r := fun h => hne r (List.mem_cons_self _ _) h.symm
      cases hr : d.get r with
      | none => exact hk
      | some v => simp only []; split_ifs <;> simp_all
    · intro r2 hr2
      exact hne r2 (List.mem_cons_of_mem _ hr2)

theorem foldl_copyClash_absent (ks : List String) (d : Fields) (k : String)
    (hk : d.get k = none) (hne : ∀ r ∈ ks, "fields." ++ r ≠ k) :
    (ks.foldl copyClash d).get k = none := by
  induction ks generalizing d with
  | nil => exact hk
  | cons r rest ih =>
    simp only [List.foldl_cons]
    apply ih
    · rw [copyClash_get]
      have h1 : k ≠ "fields." ++ r := fun h => hne r (List.mem_cons_self _ _) h.symm
      cases hr : d.get r with
      | none => exact hk
      | some v => simp only []; split_ifs <;> simp_all
    · intro r2 hr2
      exact hne r2 (List.mem_cons_of_mem _ hr2)

/-- Once `k` has been moved (absent, value under its prefixed form), later
move blocks leave both facts in place. -/
theorem foldl_moveClash_moved (ks : List String) (d : Fields) (k : String) (v : Value)
    (hk : d.get k = none) (hp : d.get ("fields." ++ k) = some v)
    (hne : ∀ r ∈ ks, "fields." ++ r ≠ k ∧ "fields." ++ k ≠ r) :
    (ks.foldl moveClash d).get k = none ∧
    (ks.foldl moveClash d).get ("fields." ++ k) = some v := by
  induction ks generalizing d with
  | nil => exact ⟨hk, hp⟩
  | cons r rest ih =>
    simp only [List.foldl_cons]
    have hr1 := (hne r (List.mem_cons_self _ _)).1
    have hr2 := (hne r (List.mem_cons_self _ _)).2
    apply ih
    · rw [moveClash_get]
      cases hr : d.get r with
      | none => exact hk
      | some x =>
        simp only []
        split_ifs with h1 h2
        · rfl
        · exact absurd h2.symm hr1
        · exact hk
    · rw [moveClash_get]
      cases hr : d.get r with
      | none => exact hp
      | some x =>
        simp only []
        split_ifs with h1 h2
        · exact absurd h1 hr2
        · have : k = r := fields_prefix_inj k r h2
          subst this
          rw [hk] at hr
          exact absurd hr (by simp)
        · exact hp
    · intro r2 hr2m
      exact hne r2 (List.mem_cons_of_mem _ hr2m)

theorem foldl_copyClash_moved (ks : List String) (d : Fields) (k : String) (v : Value)
    (hk : d.get k = none) (hp : d.get ("fields." ++ k) = some v)
    (hne : ∀ r ∈ ks, "fields." ++ r ≠ k) :
    (ks.foldl copyClash d).get ("fields." ++ k) = some v := by
  induction ks generalizing d with
  | nil => exact hp
  | cons r rest ih =>
    simp only [List.foldl_cons]
    have hr1 := hne r (List.mem_cons_self _ _)
    apply ih
    · rw [copyClash_get]
      cases hr : d.get r with
      | none => exact hk
      | some x =>
        simp only []
        split_ifs with h2
        · exact absurd h2.symm hr1
        · exact hk
    · rw [copyClash_get]
      cases hr : d.get r with
      | none => exact hp
      | some x =>
        simp only []
        split_ifs with h2
        · have : k = r := fields_prefix_inj k r h2
          subst this
          rw [hk] at hr
          exact absurd hr (by simp)
        · exact hp
    · intro r2 hr2m
      exact hne r2 (List.mem_cons_of_mem _ hr2m)

/-- A key outside the handled ones keeps its binding through the move blocks,
unless it is the prefixed form of a handled key that is present. -/
theorem foldl_moveClash_frame (ks : List String) (d : Fields) (k2 : String)
    (hnot : k2 ∉ ks) (hpre : ∀ r ∈ ks, d.get r ≠ none → k2 ≠ "fields." ++ r)
    (hres : ∀ a ∈ ks, ∀ b ∈ ks, "fields." ++ a ≠ b) :
    (ks.foldl moveClash d).get k2 = d.get k2 := by
  induction ks generalizing d with
  | nil => rfl
  | cons r rest ih =>
    simp only [List.foldl_cons]
    simp only [List.mem_cons, not_or] at hnot
    have hstep : ∀ x, x ≠ r → (d.get r ≠ none → x ≠ "fields." ++ r) →
        (moveClash d r).get x = d.get x := by
      intro x hx1 hx2
      rw [moveClash_get]
      cases hr : d.get r with
      | none => rfl
      | some v =>
        have := hx2 (by simp [hr])
        simp [hx1, this]
    rw [ih (moveClash d r) hnot.2 ?_ ?_]
    · exact hstep k2 hnot.1 (hpre r (List.mem_cons_self _ _))
    · intro r2 hr2 hpres
      apply hpre r2 (List.mem_cons_of_mem _ hr2)
      by_cases h : r2 = r
      · subst h
        rw [moveClash_get] at hpres
        cases hr : d.get r2 with
        | none => rw [hr] at hpres; simp only [] at hpres; exact hpres
        | some v => simp
      · rwa [hstep r2 h (fun _ hc =>
          hres r (List.mem_cons_self _ _) r2 (List.mem_cons_of_mem _ hr2) hc.symm)] at hpres
    · intro a ha b hb
      exact hres a (List.mem_cons_of_mem _ ha) b (List.mem_cons_of_mem _ hb)

theorem foldl_copyClash_frame (ks : List String) (d : Fields) (k2 : String)
    (hpre : ∀ r ∈ ks, d.get r ≠ none → k2 ≠ "fields." ++ r)
    (hres : ∀ a ∈ ks, ∀ b ∈ ks, "fields." ++ a ≠ b) :
    (ks.foldl copyClash d).get k2 = d.get k2 := by
  induction ks generalizing d with
  | nil => rfl
  | cons r rest ih =>
    simp only [List.foldl_cons]
    have hstep : ∀ x, (d.get r ≠ none → x ≠ "fields." ++ r) →
        (copyClash d r).get x = d.get x := by
      intro x hx2
      rw [copyClash_get]
      cases hr : d.get r with
      | none => rfl
      | some v =>
        have := hx2 (by simp [hr])
        simp [this]
    rw [ih (copyClash d r) ?_ ?_]
    · exact hstep k2 (hpre r (List.mem_cons_self _ _))
    · intro r2 hr2 hpres
      apply hpre r2 (List.mem_cons_of_mem _ hr2)
      rwa [hstep r2 (fun _ hc =>
        hres r (List.mem_cons_self _ _) r2 (List.mem_cons_of_mem _ hr2) hc.symm)] at hpres
    · intro a ha b hb
      exact hres a (List.mem_cons_of_mem _ ha) b (List.mem_cons_of_mem _ hb)

theorem foldl_moveClash_deleted (ks : List String) (d : Fields) (k : String) (hk : k ∈ ks)
    (hres : ∀ a ∈ ks, ∀ b ∈ ks, "fields." ++ a ≠ b) :
    (ks.foldl moveClash d).get k = none := by
  induction ks generalizing d with
  | nil => simp at hk
  | cons r rest ih =>
    simp only [List.foldl_cons]
    by_cases h : k = r
    · subst h
      apply foldl_moveClash_absent
      · rw [moveClash_get]
        cases hr : d.get k with
        | none => rfl
        | some v => simp
      · intro r2 hr2
        exact hres r2 (List.mem_cons_of_mem _ hr2) k (List.mem_cons_self _ _)
    · have hk2 : k ∈ rest := by
        rcases List.mem_cons.mp hk with h1 | h1
        · exact absurd h1 h
        · exact h1
      exact ih _ hk2 (fun a ha b hb =>
        hres a (List.mem_cons_of_mem _ ha) b (List.mem_cons_of_mem _ hb))

theorem foldl_moveClash_stores (ks : List String) (d : Fields) (k : String) (v : Value)
    (hk : k ∈ ks) (hres : ∀ a ∈ ks, ∀ b ∈ ks, "fields." ++ a ≠ b) (hv : d.get k = some v) :
    (ks.foldl moveClash d).get k = none ∧
    (ks.foldl moveClash d).get ("fields." ++ k) = some v := by
  induction ks generalizing d with
  | nil => simp at hk
  | cons r rest ih =>
    simp only [List.foldl_cons]
    by_cases h : k = r
    · subst h
      apply foldl_moveClash_moved
      · rw [moveClash_get, hv]; simp
      · rw [moveClash_get, hv]; simp [fields_prefix_ne]
      · intro r2 hr2
        exact ⟨hres r2 (List.mem_cons_of_mem _ hr2) k (List.mem_cons_self _ _),
          hres k (List.mem_cons_self _ _) r2 (List.mem_cons_of_mem _ hr2)⟩
    · have hk2 : k ∈ rest := by
        rcases List.mem_cons.mp hk with h1 | h1
        · exact absurd h1 h
        · exact h1
      apply ih _ hk2 (fun a ha b hb =>
        hres a (List.mem_cons_of_mem _ ha) b (List.mem_cons_of_mem _ hb))
      rw [moveClash_get]
      have h2 : k ≠ "fields." ++ r := fun hc =>
        hres r (List.mem_cons_self _ _) k hk hc.symm
      cases hr : d.get r with
      | none => exact hv
      | some x => simp [h, h2, hv]

theorem foldl_copyClash_stores (ks : List String) (d : Fields) (k : String) (v : Value)
    (hk : k ∈ ks ∨ d.get ("fields." ++ k) = some v) (hv : d.get k = some v)
    (hne : ∀ r ∈ ks, "fields." ++ r ≠ k) :
    (ks.foldl copyClash d).get ("fields." ++ k) = some v := by
  induction ks generalizing d with
  | nil =>
    rcases hk with h | h
    · simp at h
    · exact h
  | cons r rest ih =>
    simp only [List.foldl_cons]
    have hr1 := hne r (List.mem_cons_self _ _)
    have hv2 : (copyClash d r).get k = some v := by
      rw [copyClash_get]
      cases hr : d.get r with
      | none => exact hv
      | some x =>
        have hkr : k ≠ "fields." ++ r := fun hc => hr1 hc.symm
        simp [hkr, hv]
    apply ih _ ?_ hv2 (fun r2 hr2 => hne r2 (List.mem_cons_of_mem _ hr2))
    by_cases h : k = r
    · subst h
      right
      rw [copyClash_get, hv]
      simp
    · rcases hk with h1 | h1
      · rcases List.mem_cons.mp h1 with h2 | h2
        · exact absurd h2 h
        · exact Or.inl h2
      · right
        rw [copyClash_get]
        cases hr : d.get r with
        | none => exact h1
        | some x =>
          have : "fields." ++ k ≠ "fields." ++ r := fun hc => h (fields_prefix_inj k r hc)
          simp [this, h1]

/-- C7 (as stated, refuted).  (a) With `reportCaller` true a user field "func"
is still a key after the call.  (b) A user field "fields.level" is overwritten
by the renamed "level" field: its value is in the map no more.  (c) With a
field map that renders the message under "fields.@timestamp", a user field
"@timestamp" is moved twice and its value is not under "fields.@timestamp". -/
theorem prefixFieldClashes_counterexample :
    ((prefixFieldClashes (Fields.make.set "func" (intV "1")) FieldMap.default true).get "func"
        = some (intV "1")) ∧
    ((prefixFieldClashes ((Fields.make.set "level" (intV "1")).set "fields.level" (intV "2"))
        FieldMap.default false).entries = [("fields.level", intV "1")]) ∧
    ((prefixFieldClashes (Fields.make.set "@timestamp" (intV "1"))
        ⟨fun k => if k = "message" then "fields.@timestamp" else k⟩ false).get
          "fields.@timestamp" = none) := by
  decide

/-- C7 (amended): provided no resolved reserved key is "fields." followed by a
resolved reserved key: after the call none of the resolved message, level,
@timestamp and error keys is a key of `data`; for every reserved key `k`
(the four above, and the resolved func and file keys when `reportCaller` is
true) that was a key before, its former value is stored under "fields." + k;
and every key that is neither reserved nor "fields." + k for a reserved `k`
present before the call keeps its binding. -/
theorem prefixFieldClashes_renames (fieldMap : FieldMap) (reportCaller : Bool) (data : Fields)
    (hres : ∀ a ∈ reservedKeys fieldMap reportCaller,
      ∀ b ∈ reservedKeys fieldMap reportCaller, "fields." ++ a ≠ b) :
    (∀ k ∈ reservedMoved fieldMap,
      (prefixFieldClashes data fieldMap reportCaller).get k = none) ∧
    (∀ k ∈ reservedKeys fieldMap reportCaller, ∀ v, data.get k = some v →
      (prefixFieldClashes data fieldMap reportCaller).get ("fields." ++ k) = some v) ∧
    (∀ k2, k2 ∉ reservedKeys fieldMap reportCaller →
      (∀ r ∈ reservedKeys fieldMap reportCaller, data.get r ≠ none → k2 ≠ "fields." ++ r) →
      (prefixFieldClashes data fieldMap reportCaller).get k2 = data.get k2) := by
  have hM : ∀ a ∈ reservedMoved fieldMap, a ∈ reservedKeys fieldMap reportCaller :=
    fun a ha => List.mem_append_left _ ha
  have hC : ∀ a ∈ reservedCopied fieldMap reportCaller, a ∈ reservedKeys fieldMap reportCaller :=
    fun a ha => List.mem_append_right _ ha
  have hresM : ∀ a ∈ reservedMoved fieldMap, ∀ b ∈ reservedMoved fieldMap, "fields." ++ a ≠ b :=
    fun a ha b hb => hres a (hM a ha) b (hM b hb)
  have hresC : ∀ a ∈ reservedCopied fieldMap reportCaller,
      ∀ b ∈ reservedCopied fieldMap reportCaller, "fields." ++ a ≠ b :=
    fun a ha b hb => hres a (hC a ha) b (hC b hb)
  -- a key handled only by the copy blocks is untouched by the move blocks
  have hmid : ∀ r ∈ reservedKeys fieldMap reportCaller, r ∉ reservedMoved fieldMap →
      ((reservedMoved fieldMap).foldl moveClash data).get r = data.get r := by
    intro r hr hrn
    exact foldl_moveClash_frame _ data r hrn
      (fun r2 hr2 _ hc => hres r2 (hM r2 hr2) r hr hc.symm) hresM
  rw [prefixFieldClashes_eq_foldl]
  refine ⟨?_, ?_, ?_⟩
  · intro k hk
    apply foldl_copyClash_absent
    · exact foldl_moveClash_deleted _ data k hk hresM
    · intro r hr
      exact hres r (hC r hr) k (hM k hk)
  · intro k hk v hv
    by_cases hkm : k ∈ reservedMoved fieldMap
    · have h := foldl_moveClash_stores _ data k v hkm hresM hv
      exact foldl_copyClash_moved _ _ k v h.1 h.2 (fun r hr => hres r (hC r hr) k hk)
    · have hkc : k ∈ reservedCopied fieldMap reportCaller := by
        rcases List.mem_append.mp hk with h | h
        · exact absurd h hkm
        · exact h
      apply foldl_copyClash_stores _ _ k v (Or.inl hkc)
      · rw [hmid k hk hkm]; exact hv
      · intro r hr
        exact hres r (hC r hr) k hk
  · intro k2 hk2 hpre
    have hk2m : k2 ∉ reservedMoved fieldMap := fun h => hk2 (hM k2 h)
    rw [foldl_copyClash_frame _ _ k2 ?_ hresC]
    · exact foldl_moveClash_frame _ data k2 hk2m (fun r hr => hpre r (hM r hr)) hresM
    · intro r hr hpres
      apply hpre r (hC r hr)
      by_cases hrm : r ∈ reservedMoved fieldMap
      · rw [foldl_moveClash_deleted _ data r hrm hresM] at hpres
        exact absurd rfl hpres
      · rwa [hmid r (hC r hr) hrm] at hpres

theorem prefixFieldClashes_renames_witness :
    (∀ a ∈ reservedKeys FieldMap.default true, ∀ b ∈ reservedKeys FieldMap.default true,
      "fields." ++ a ≠ b) ∧
    (prefixFieldClashes ((Fields.make.set "level" (intV "1")).set "user" (intV "2"))
      FieldMap.default true).get "level" = none ∧
    (prefixFieldClashes ((Fields.make.set "level" (intV "1")).set "user" (intV "2"))
      FieldMap.default true).get "fields.level" = some (intV "1") :=
  ⟨by decide,
    (prefixFieldClashes_renames FieldMap.default true
      ((Fields.make.set "level" (intV "1")).set "user" (intV "2")) (by decide)).1
        "level" (by decide),
    (prefixFieldClashes_renames FieldMap.default true
      ((Fields.make.set "level" (intV "1")).set "user" (intV "2")) (by decide)).2.1
        "level" (by decide) (intV "1") (by decide)⟩

/-! ## The log pipeline -/

/-- While the package-level `file` is nil, `chooseFile` does nothing. -/
theorem chooseFile_file_nil (env : Env) (w : World) (h : w.g.file = none) :
    chooseFile env w = Run.skip w := by
  unfold chooseFile
  simp [h]

/-- No operation of the package assigns the package-level `file`. -/
theorem file_never_assigned (env : Env) (w : World) (lg : LoggerRef) (out : Writer)
    (level : Level) (path nameFormatter timeFormatter : String) :
    (Logger.SetOutput w lg out).g.file = w.g.file ∧
    (Logger.SetLevel w lg level).g.file = w.g.file ∧
    (SetOutputFile env w path nameFormatter timeFormatter).world.g.file = w.g.file ∧
    (chooseFile env w).world.g.file = w.g.file := by
  have h3 : ∀ p n t, (SetOutputFile env w p n t).world.g.file = w.g.file := by
    intro p n t
    unfold SetOutputFile
    simp only [Logger.SetOutput, World.setLogger]
    split
    · rfl
    · split_ifs <;> rfl
  refine ⟨rfl, rfl, h3 _ _ _, ?_⟩
  unfold chooseFile
  by_cases hflg : w.g.chooseFileFlg = true
  · simp only [hflg, if_true]
    split_ifs
    · exact h3 _ _ _
    · rfl
  · simp only [hflg, Bool.false_eq_true, if_false]
    rfl

/-- Go: `New()` assigns `localWriter = os.Stderr`, stores the new logger and
leaves the package-level `file` and every other logger as they were. -/
theorem New_frame (textFormatter : Formatter) (w : World) (r : LoggerRef) :
    (New textFormatter w r).g.localWriter = Writer.stderr ∧
    (New textFormatter w r).g.file = w.g.file ∧
    (New textFormatter w r).logger r = New.value textFormatter ∧
    (∀ x, x ≠ r → (New textFormatter w r).logger x = w.logger x) := by
  unfold New World.setLogger
  refine ⟨rfl, rfl, by simp, fun x hx => by simp [hx]⟩

theorem Entry.fireHooks_spec (w : World) (entry : Entry) :
    (entry.fireHooks w).world = w ∧ (entry.fireHooks w).outcome = Outcome.returned ∧
    (∃ rest, (entry.fireHooks w).trace = Event.fire entry.Level entry :: rest ∧
      ∀ ev ∈ rest, ∃ msg, ev = Event.stderr msg) := by
  unfold Entry.fireHooks
  split
  · exact ⟨rfl, rfl, _, rfl, by simp⟩
  · exact ⟨rfl, rfl, _, rfl, by simp⟩

/-- Behaviour of `Entry.write` while the package-level `file` is nil: the formatter is
called first; the sink is written once, with the formatter's output, exactly
when the formatter returns no error (and the sink is not nil). -/
theorem Entry.write_spec (env : Env) (w : World) (entry : Entry) (hfile : w.g.file = none) :
    (entry.write env w).world = w ∧
    (∃ rest, (entry.write env w).trace = Event.format entry :: rest ∧
      (∀ ev ∈ rest, ev.isFire = false ∧ ev.isFormat = false ∧ ev.isExit = false ∧
        ev.isRunHandlers = false) ∧
      (∀ b, (w.logger entry.Logger).Formatter.Format entry = Except.ok b →
        (w.logger entry.Logger).Out ≠ Writer.nil →
        ∃ rest2, rest = Event.write (w.logger entry.Logger).Out b :: rest2 ∧
          ∀ ev ∈ rest2, ev.isWrite = false) ∧
      (∀ err, (w.logger entry.Logger).Formatter.Format entry = Except.error err →
        ∀ ev ∈ rest, ev.isWrite = false)) ∧
    ((w.logger entry.Logger).Out ≠ Writer.nil → (entry.write env w).outcome = Outcome.returned) := by
  unfold Entry.write
  rw [chooseFile_file_nil env w hfile]
  simp only [Run.andThen, Run.skip, List.nil_append]
  cases hf : (w.logger entry.Logger).Formatter.Format entry with
  | error err =>
    refine ⟨rfl, ⟨_, rfl, ?_, ?_, ?_⟩, fun _ => rfl⟩
    · simp [Event.isFire, Event.isFormat, Event.isExit, Event.isRunHandlers]
    · intro b hb; cases hb
    · intro _ _; simp [Event.isWrite]
  | ok b =>
    simp only []
    by_cases hout : (w.logger entry.Logger).Out = Writer.nil
    · rw [if_pos hout]
      refine ⟨rfl, ⟨_, rfl, ?_, ?_, ?_⟩, fun h => absurd hout h⟩
      · simp
      · intro _ _ h; exact absurd hout h
      · intro err he; cases he
    · rw [if_neg hout]
      cases hw : env.write (w.logger entry.Logger).Out b with
      | none =>
        refine ⟨rfl, ⟨_, rfl, ?_, ?_, ?_⟩, fun _ => rfl⟩
        · simp [Event.isFire, Event.isFormat, Event.isExit, Event.isRunHandlers]
        · intro b2 hb2 _
          cases hb2
          exact ⟨[], rfl, by simp⟩
        · intro err he; cases he
      | some werr =>
        refine ⟨rfl, ⟨_, rfl, ?_, ?_, ?_⟩, fun _ => rfl⟩
        · simp [Event.isFire, Event.isFormat, Event.isExit, Event.isRunHandlers]
        · intro b2 hb2 _
          cases hb2
          exact ⟨_, rfl, by simp [Event.isWrite]⟩
        · intro err he; cases he

theorem Run.andThen_returned (r : Run) (k : World → Run) (h : r.outcome = Outcome.returned) :
    r.andThen k = ⟨(k r.world).world, r.trace ++ (k r.world).trace, (k r.world).outcome⟩ := by
  unfold Run.andThen
  rw [h]

theorem Entry.finalize_frame (env : Env) (w : World) (e : Entry) (level : logger.Level)
    (field : Value) (msg : String) :
    (e.finalize env w level field msg).Logger = e.Logger ∧
    (e.finalize env w level field msg).Level = level ∧
    (e.finalize env w level field msg).Data = e.Data ∧
    (e.finalize env w level field msg).Message = (if msg.length ≠ 0 then msg else e.Message) ∧
    (e.finalize env w level field msg).Time = (if e.Time.IsZero then env.now else e.Time) ∧
    (e.finalize env w level field msg).Context = e.Context ∧
    (e.finalize env w level field msg).err = e.err := by
  unfold Entry.finalize
  simp only []
  refine ⟨?_, ?_, ?_, ?_, ?_, ?_, ?_⟩ <;> split_ifs <;> rfl

/-- Behaviour of `Entry.log` while the package-level `file` is nil and the sink is set:
the hooks are fired with the finalized entry, then `write` runs, then the call
panics with the entry if `level <= PanicLevel` and returns otherwise. -/
theorem Entry.log_spec (env : Env) (w : World) (e : Entry) (level : logger.Level) (field : Value)
    (msg : String) (hfile : w.g.file = none) (hout : (w.logger e.Logger).Out ≠ Writer.nil) :
    (e.log env w level field msg).world = w ∧
    (e.log env w level field msg).trace
      = ((e.finalize env w level field msg).fireHooks w).trace
          ++ ((e.prepared env w level field msg).write env w).trace ∧
    (e.log env w level field msg).outcome
      = (if level ≤ PanicLevel then
          Outcome.panicked (PanicValue.entry (e.raised env w level field msg))
        else Outcome.returned) := by
  have hf := Entry.fireHooks_spec w (e.finalize env w level field msg)
  have hlg : (e.prepared env w level field msg).Logger = e.Logger :=
    (Entry.finalize_frame env w e level field msg).1
  have hw := Entry.write_spec env w (e.prepared env w level field msg) hfile
  rw [hlg] at hw
  have hwo := hw.2.2 hout
  unfold Entry.log
  simp only []
  rw [Run.andThen_returned _ _ hf.2.1]
  simp only [hf.1]
  have hprep : ({ e.finalize env w level field msg with Buffer := some "" } : Entry)
      = e.prepared env w level field msg := rfl
  rw [hprep, Run.andThen_returned _ _ hwo]
  simp only [hw.1, Run.skip]
  refine ⟨?_, ?_, ?_⟩
  · split_ifs <;> rfl
  · split_ifs <;> simp
  · split_ifs <;> rfl

/-- Behaviour of `Entry.log` whatever the sink is: the hooks are fired with the
finalized entry, then `write` runs; if `write` returns, the call panics with
the entry when `level <= PanicLevel` and returns otherwise, and if `write`
panics the call ends with that panic. -/
theorem Entry.log_run (env : Env) (w : World) (e : Entry) (level : logger.Level) (field : Value)
    (msg : String) :
    (e.log env w level field msg).trace
      = ((e.finalize env w level field msg).fireHooks w).trace
          ++ ((e.prepared env w level field msg).write env w).trace ∧
    (e.log env w level field msg).outcome
      = (match ((e.prepared env w level field msg).write env w).outcome with
        | Outcome.returned =>
          if level ≤ PanicLevel then
            Outcome.panicked (PanicValue.entry (e.raised env w level field msg))
          else Outcome.returned
        | o => o) := by
  have hf := Entry.fireHooks_spec w (e.finalize env w level field msg)
  unfold Entry.log
  simp only []
  rw [Run.andThen_returned _ _ hf.2.1]
  simp only [hf.1]
  have hprep : ({ e.finalize env w level field msg with Buffer := some "" } : Entry)
      = e.prepared env w level field msg := rfl
  rw [hprep]
  unfold Run.andThen
  cases ho : ((e.prepared env w level field msg).write env w).outcome with
  | returned =>
    simp only []
    constructor
    · split_ifs <;> simp [Run.skip]
    · split_ifs <;> rfl
  | panicked v => exact ⟨rfl, ho⟩
  | exited c => exact ⟨rfl, ho⟩

theorem Logger.Log_eq (env : Env) (w : World) (lg : LoggerRef) (level : logger.Level)
    (field : Value) (args : List Value) :
    Logger.Log env w lg level field args = (NewEntry lg).Log env w level field args := by
  unfold Logger.Log Entry.Log Logger.newEntry
  by_cases h : (w.logger lg).IsLevelEnabled level = true
  · simp only [NewEntry, h, if_true]
  · simp only [NewEntry, h, if_false, Bool.false_eq_true]

theorem Logger.IsLevelEnabled_iff (lg : Logger) (level : logger.Level) :
    lg.IsLevelEnabled level = true ↔ level ≤ lg.Level := by
  simp [Logger.IsLevelEnabled, Logger.level]

/-- C3 (as stated, refuted): threshold Info, an Info call, a Formatter that
returns an error.  The level is enabled, the hooks are fired and the
Formatter is called, but the sink is not written. -/
theorem Log_gate_counterexample :
    InfoLevel ≤ ((World.init failingFormatter).logger std).Level ∧
    (((NewEntry std).Log (sampleEnv "") (World.init failingFormatter) InfoLevel nilV
        [stringValue "hi"]).trace.any Event.isFire = true) ∧
    (((NewEntry std).Log (sampleEnv "") (World.init failingFormatter) InfoLevel nilV
        [stringValue "hi"]).trace.any Event.isFormat = true) ∧
    (((NewEntry std).Log (sampleEnv "") (World.init failingFormatter) InfoLevel nilV
        [stringValue "hi"]).trace.any Event.isWrite = false) := by
  decide

/-- C3 (amended): for a Logger with threshold `T` (sink set) and an event
level `L`, `Entry.Log(L, ...)` and `Logger.Log(L, ...)` fire the hooks and
call the Formatter if and only if `L <= T`, and write to the sink if and only
if `L <= T` and the Formatter returned no error; when `L > T` no call is made
at all.  `IsLevelEnabled(L)` is `T >= L`.  The hooks receive level `L` and the
finalized entry, and the sink receives the Formatter's output.  `hfile` is the
invariant that the package-level `file` is nil (`file_never_assigned`). -/
theorem Log_level_gate (env : Env) (w : World) (e : Entry) (lg : LoggerRef) (L : Level)
    (field : Value) (args : List Value) (hfile : w.g.file = none)
    (hout : (w.logger e.Logger).Out ≠ Writer.nil) :
    ((w.logger e.Logger).IsLevelEnabled L = decide ((w.logger e.Logger).Level ≥ L)) ∧
    ((e.Log env w L field args).trace.any Event.isFire = true ↔ L ≤ (w.logger e.Logger).Level) ∧
    ((e.Log env w L field args).trace.any Event.isFormat = true
      ↔ L ≤ (w.logger e.Logger).Level) ∧
    ((e.Log env w L field args).trace.any Event.isWrite = true
      ↔ (L ≤ (w.logger e.Logger).Level ∧
          ∃ b, (w.logger e.Logger).Formatter.Format (e.prepared env w L field (env.Sprint args))
            = Except.ok b)) ∧
    ((w.logger e.Logger).Level < L → (e.Log env w L field args).trace = []) ∧
    (L ≤ (w.logger e.Logger).Level →
      Event.fire L (e.finalize env w L field (env.Sprint args))
        ∈ (e.Log env w L field args).trace ∧
      Event.format (e.prepared env w L field (env.Sprint args))
        ∈ (e.Log env w L field args).trace ∧
      ∀ b, (w.logger e.Logger).Formatter.Format (e.prepared env w L field (env.Sprint args))
          = Except.ok b →
        Event.write (w.logger e.Logger).Out b ∈ (e.Log env w L field args).trace) ∧
    Logger.Log env w lg L field args = (NewEntry lg).Log env w L field args := by
  refine ⟨rfl, ?_⟩
  by_cases hen : L ≤ (w.logger e.Logger).Level
  · have hen2 : (w.logger e.Logger).IsLevelEnabled L = true :=
      (Logger.IsLevelEnabled_iff _ _).mpr hen
    have hLog : e.Log env w L field args = e.log env w L field (env.Sprint args) := by
      unfold Entry.Log
      rw [if_pos hen2]
    have hspec := Entry.log_spec env w e L field (env.Sprint args) hfile hout
    have hfr := Entry.finalize_frame env w e L field (env.Sprint args)
    obtain ⟨hs, hft, hhs⟩ := (Entry.fireHooks_spec w (e.finalize env w L field (env.Sprint args))).2.2
    have hw := Entry.write_spec env w (e.prepared env w L field (env.Sprint args)) hfile
    have hlg : (e.prepared env w L field (env.Sprint args)).Logger = e.Logger := hfr.1
    rw [hlg] at hw
    obtain ⟨rest, hwt, hrest, hok, herr⟩ := hw.2.1
    rw [hfr.2.1] at hft
    have htr : (e.Log env w L field args).trace
        = Event.fire L (e.finalize env w L field (env.Sprint args)) :: hs
          ++ Event.format (e.prepared env w L field (env.Sprint args)) :: rest := by
      rw [hLog, hspec.2.1, hft, hwt]
    have hhsW : ∀ ev ∈ hs, ev.isWrite = false := by
      intro ev hev
      obtain ⟨m, hm⟩ := hhs ev hev
      rw [hm]; rfl
    refine ⟨?_, ?_, ?_, ?_, ?_, Logger.Log_eq env w lg L field args⟩
    · simp [htr, Event.isFire, hen]
    · simp [htr, Event.isFormat, hen]
    · constructor
      · intro hany
        refine ⟨hen, ?_⟩
        cases hfm : (w.logger e.Logger).Formatter.Format
            (e.prepared env w L field (env.Sprint args)) with
        | ok b => exact ⟨b, rfl⟩
        | error err =>
          exfalso
          have hr := herr err hfm
          have h1 : hs.any Event.isWrite = false :=
            List.any_eq_false.mpr (fun ev hev => by simp [hhsW ev hev])
          have h2 : rest.any Event.isWrite = false :=
            List.any_eq_false.mpr (fun ev hev => by simp [hr ev hev])
          rw [htr] at hany
          simp only [List.cons_append, List.any_cons, List.any_append, h1, h2] at hany
          simp [Event.isWrite] at hany
      · rintro ⟨_, b, hb⟩
        obtain ⟨rest2, hr2, _⟩ := hok b hb hout
        simp [htr, hr2, Event.isWrite]
    · intro hlt
      exact absurd hen (Nat.not_le_of_lt hlt)
    · intro _
      refine ⟨by simp [htr], by simp [htr], ?_⟩
      intro b hb
      obtain ⟨rest2, hr2, _⟩ := hok b hb hout
      simp [htr, hr2]
  · have hen2 : ¬ (w.logger e.Logger).IsLevelEnabled L = true :=
      fun h => hen ((Logger.IsLevelEnabled_iff _ _).mp h)
    have hLog : e.Log env w L field args = Run.skip w := by
      unfold Entry.Log
      rw [if_neg hen2]
    refine ⟨?_, ?_, ?_, ?_, ?_, Logger.Log_eq env w lg L field args⟩
    · simp [hLog, Run.skip, hen]
    · simp [hLog, Run.skip, hen]
    · simp [hLog, Run.skip, hen]
    · intro _
      rw [hLog]; rfl
    · intro h
      exact absurd h hen

theorem Log_level_gate_witness :
    (World.init sampleFormatter).g.file = none ∧
    ((Logger.SetLevel (World.init sampleFormatter) std WarnLevel).logger std).Out ≠ Writer.nil ∧
    ((NewEntry std).Log (sampleEnv "") (Logger.SetLevel (World.init sampleFormatter) std WarnLevel)
        InfoLevel nilV [stringValue "hi"]).trace = [] ∧
    (((NewEntry std).Log (sampleEnv "")
        (Logger.SetLevel (World.init sampleFormatter) std WarnLevel)
        ErrorLevel nilV [stringValue "hi"]).trace.any Event.isWrite = true) :=
  ⟨rfl, by decide,
    (Log_level_gate (sampleEnv "") (Logger.SetLevel (World.init sampleFormatter) std WarnLevel)
      (NewEntry std) std InfoLevel nilV [stringValue "hi"] rfl (by decide)).2.2.2.2.1 (by decide),
    (Log_level_gate (sampleEnv "") (Logger.SetLevel (World.init sampleFormatter) std WarnLevel)
      (NewEntry std) std ErrorLevel nilV [stringValue "hi"] rfl (by decide)).2.2.2.1.mpr
      ⟨by decide, _, rfl⟩⟩

/-! ## Fatal and Panic -/

theorem Entry.Log_quiet (env : Env) (w : World) (e : Entry) (level : logger.Level)
    (field : Value) (args : List Value) (hfile : w.g.file = none)
    (hout : (w.logger e.Logger).Out ≠ Writer.nil) (hlevel : PanicLevel < level) :
    (e.Log env w level field args).Quiet w := by
  unfold Entry.Log
  split_ifs with hen
  · have hspec := Entry.log_spec env w e level field (env.Sprint args) hfile hout
    obtain ⟨hs, hft, hhs⟩ :=
      (Entry.fireHooks_spec w (e.finalize env w level field (env.Sprint args))).2.2
    have hw := Entry.write_spec env w (e.prepared env w level field (env.Sprint args)) hfile
    obtain ⟨rest, hwt, hrest, _, _⟩ := hw.2.1
    refine ⟨hspec.1, ?_, ?_⟩
    · rw [hspec.2.2, if_neg (Nat.not_le_of_lt hlevel)]
    · intro ev hev
      rw [hspec.2.1, hft, hwt] at hev
      simp only [List.cons_append, List.mem_cons, List.mem_append] at hev
      rcases hev with h | h | h | h
      · rw [h]; exact ⟨rfl, rfl⟩
      · obtain ⟨m, hm⟩ := hhs ev h
        rw [hm]; exact ⟨rfl, rfl⟩
      · rw [h]; exact ⟨rfl, rfl⟩
      · exact ⟨(hrest ev h).2.2.1, (hrest ev h).2.2.2⟩
  · exact ⟨rfl, rfl, by simp [Run.skip]⟩

theorem Entry.Logf_quiet (env : Env) (w : World) (e : Entry) (level : logger.Level)
    (field : Value) (format : String) (args : List Value) (hfile : w.g.file = none)
    (hout : (w.logger e.Logger).Out ≠ Writer.nil) (hlevel : PanicLevel < level) :
    (e.Logf env w level field format args).Quiet w := by
  unfold Entry.Logf
  split_ifs
  · exact Entry.Log_quiet env w e level field _ hfile hout hlevel
  · exact ⟨rfl, rfl, by simp [Run.skip]⟩

theorem Entry.Logln_quiet (env : Env) (w : World) (e : Entry) (level : logger.Level)
    (field : Value) (args : List Value) (hfile : w.g.file = none)
    (hout : (w.logger e.Logger).Out ≠ Writer.nil) (hlevel : PanicLevel < level) :
    (e.Logln env w level field args).Quiet w := by
  unfold Entry.Logln
  split_ifs
  · exact Entry.Log_quiet env w e level field _ hfile hout hlevel
  · exact ⟨rfl, rfl, by simp [Run.skip]⟩

theorem Logger.Exit_spec (w : World) (lg : LoggerRef) (code : Int) :
    (Logger.Exit w lg code).trace = [Event.runHandlers, Event.exit code] ∧
    ((w.logger lg).exitsProcess = true → (Logger.Exit w lg code).outcome = Outcome.exited code) ∧
    ((w.logger lg).exitsProcess = false → (Logger.Exit w lg code).outcome = Outcome.returned) := by
  unfold Logger.Exit
  simp only []
  split <;> rename_i h <;> simp [Logger.exitsProcess, h]

/-- A quiet call followed by `Exit(1)`. -/
theorem Run.then_Exit (r : Run) (w : World) (lg : LoggerRef) (hq : r.Quiet w) :
    (r.andThen fun w1 => Logger.Exit w1 lg 1).EndsWithExit1 ∧
    ((w.logger lg).exitsProcess = true →
      (r.andThen fun w1 => Logger.Exit w1 lg 1).outcome = Outcome.exited 1) := by
  obtain ⟨hw, ho, hev⟩ := hq
  rw [Run.andThen_returned _ _ ho, hw]
  have hx := Logger.Exit_spec w lg 1
  exact ⟨⟨r.trace, by simp only [hx.1], hev⟩, hx.2.1⟩

/-- C9 (as stated, refuted): on a Logger whose sink is nil, with the Fatal
level enabled, `Logger.Fatal` and `Entry.Fatal` fire the hooks and call the
Formatter, then panic with a nil dereference at `Out.Write`: `runHandlers` and
the exit function are not called. -/
theorem Fatal_nil_sink_counterexample :
    (nilSinkWorld.logger std).Out = Writer.nil ∧
    FatalLevel ≤ (nilSinkWorld.logger std).Level ∧
    (Logger.Fatal (sampleEnv "") nilSinkWorld std nilV [stringValue "disk full"]).trace
      = [Event.fire FatalLevel
          { Logger := std, Data := Fields.make, Time := 100, Level := FatalLevel,
            Message := "disk full" },
         Event.format
          { Logger := std, Data := Fields.make, Time := 100, Level := FatalLevel,
            Message := "disk full", Buffer := some "" }] ∧
    (Logger.Fatal (sampleEnv "") nilSinkWorld std nilV [stringValue "disk full"]).outcome
      = Outcome.panicked PanicValue.nilDereference ∧
    ¬ (Logger.Fatal (sampleEnv "") nilSinkWorld std nilV
        [stringValue "disk full"]).EndsWithExit1 ∧
    ((NewEntry std).Fatal (sampleEnv "") nilSinkWorld nilV [stringValue "disk full"]).outcome
      = Outcome.panicked PanicValue.nilDereference ∧
    ¬ ((NewEntry std).Fatal (sampleEnv "") nilSinkWorld nilV
        [stringValue "disk full"]).EndsWithExit1 := by
  refine ⟨by decide, by decide, by decide, by decide, ?_, by decide, ?_⟩
  · rintro ⟨pre, h, -⟩
    have hmem : Event.exit 1 ∈ (Logger.Fatal (sampleEnv "") nilSinkWorld std nilV
        [stringValue "disk full"]).trace := by
      rw [h]
      simp
    revert hmem
    decide
  · rintro ⟨pre, h, -⟩
    have hmem : Event.exit 1 ∈ ((NewEntry std).Fatal (sampleEnv "") nilSinkWorld nilV
        [stringValue "disk full"]).trace := by
      rw [h]
      simp
    revert hmem
    decide

/-- C9 (amended): on a Logger whose sink is not nil, each of the six
Fatal-severity calls (`Fatal`, `Fatalf`, `Fatalln` on an Entry and on a
Logger) ends by calling `runHandlers` and then the exit function with code 1;
these are the last two calls and are made once, so when the event is written
the Formatter call and the sink write come before the exit function is
invoked.  With `os.Exit` as exit function the process ends with code 1.
`hfile` is the invariant that the package-level `file` is nil
(`file_never_assigned`). -/
theorem Fatal_ends_with_exit (env : Env) (w : World) (e : Entry) (lg : LoggerRef)
    (field : Value) (format : String) (args : List Value) (hfile : w.g.file = none)
    (houtE : (w.logger e.Logger).Out ≠ Writer.nil) (houtL : (w.logger lg).Out ≠ Writer.nil) :
    ((e.Fatal env w field args).EndsWithExit1 ∧
      (e.Fatalf env w field format args).EndsWithExit1 ∧
      (e.Fatalln env w field args).EndsWithExit1 ∧
      (Logger.Fatal env w lg field args).EndsWithExit1 ∧
      (Logger.Fatalf env w lg field format args).EndsWithExit1 ∧
      (Logger.Fatalln env w lg field args).EndsWithExit1) ∧
    ((w.logger e.Logger).exitsProcess = true →
      (e.Fatal env w field args).outcome = Outcome.exited 1 ∧
      (e.Fatalf env w field format args).outcome = Outcome.exited 1 ∧
      (e.Fatalln env w field args).outcome = Outcome.exited 1) ∧
    ((w.logger lg).exitsProcess = true →
      (Logger.Fatal env w lg field args).outcome = Outcome.exited 1 ∧
      (Logger.Fatalf env w lg field format args).outcome = Outcome.exited 1 ∧
      (Logger.Fatalln env w lg field args).outcome = Outcome.exited 1) := by
  have hF : PanicLevel < FatalLevel := by decide
  have h1 := Run.then_Exit _ w e.Logger (Entry.Log_quiet env w e FatalLevel field args hfile houtE hF)
  have h2 := Run.then_Exit _ w e.Logger
    (Entry.Logf_quiet env w e FatalLevel field format args hfile houtE hF)
  have h3 := Run.then_Exit _ w e.Logger
    (Entry.Logln_quiet env w e FatalLevel field args hfile houtE hF)
  have q4 : (Logger.Log env w lg FatalLevel field args).Quiet w := by
    rw [Logger.Log_eq]
    exact Entry.Log_quiet env w (NewEntry lg) FatalLevel field args hfile houtL hF
  have q5 : (Logger.Logf env w lg FatalLevel field format args).Quiet w := by
    unfold Logger.Logf
    split_ifs
    · exact Entry.Logf_quiet env w (NewEntry lg) FatalLevel field format args hfile houtL hF
    · exact ⟨rfl, rfl, by simp [Run.skip]⟩
  have q6 : (Logger.Logln env w lg FatalLevel field args).Quiet w := by
    unfold Logger.Logln
    split_ifs
    · exact Entry.Logln_quiet env w (NewEntry lg) FatalLevel field args hfile houtL hF
    · exact ⟨rfl, rfl, by simp [Run.skip]⟩
  have h4 := Run.then_Exit _ w lg q4
  have h5 := Run.then_Exit _ w lg q5
  have h6 := Run.then_Exit _ w lg q6
  exact ⟨⟨h1.1, h2.1, h3.1, h4.1, h5.1, h6.1⟩,
    fun hx => ⟨h1.2 hx, h2.2 hx, h3.2 hx⟩, fun hx => ⟨h4.2 hx, h5.2 hx, h6.2 hx⟩⟩

theorem Fatal_ends_with_exit_witness :
    (World.init sampleFormatter).g.file = none ∧
    ((World.init sampleFormatter).logger std).Out ≠ Writer.nil ∧
    (Logger.Fatal (sampleEnv "") (World.init sampleFormatter) std nilV
      [stringValue "disk full"]).EndsWithExit1 ∧
    (Logger.Fatal (sampleEnv "") (World.init sampleFormatter) std nilV
      [stringValue "disk full"]).outcome = Outcome.exited 1 :=
  ⟨rfl, by decide,
    (Fatal_ends_with_exit (sampleEnv "") (World.init sampleFormatter) (NewEntry std) std nilV
      "%v" [stringValue "disk full"] rfl (by decide) (by decide)).1.2.2.2.1,
    ((Fatal_ends_with_exit (sampleEnv "") (World.init sampleFormatter) (NewEntry std) std nilV
      "%v" [stringValue "disk full"] rfl (by decide) (by decide)).2.2 rfl).1⟩

example : (Logger.Fatal (sampleEnv "") (World.init sampleFormatter) std nilV
    [stringValue "disk full"]).trace
    = [Event.fire FatalLevel
        { Logger := std, Data := Fields.make, Time := 100, Level := FatalLevel,
          Message := "disk full" },
       Event.format
        { Logger := std, Data := Fields.make, Time := 100, Level := FatalLevel,
          Message := "disk full", Buffer := some "" },
       Event.write Writer.stderr "fatal: disk full\n",
       Event.runHandlers, Event.exit 1] := by
  decide

theorem Run.andThen_panicked (r : Run) (k : World → Run) (v : PanicValue)
    (h : r.outcome = Outcome.panicked v) : r.andThen k = r := by
  unfold Run.andThen
  rw [h]

/-- The calls `Entry.log` makes on the collaborators while the package-level
`file` is nil and the sink is set. -/
theorem Entry.log_events (env : Env) (w : World) (e : Entry) (level : logger.Level)
    (field : Value) (msg : String) (hfile : w.g.file = none)
    (hout : (w.logger e.Logger).Out ≠ Writer.nil) :
    Event.fire level (e.finalize env w level field msg) ∈ (e.log env w level field msg).trace ∧
    Event.format (e.prepared env w level field msg) ∈ (e.log env w level field msg).trace ∧
    (∀ b, (w.logger e.Logger).Formatter.Format (e.prepared env w level field msg) = Except.ok b →
      Event.write (w.logger e.Logger).Out b ∈ (e.log env w level field msg).trace) ∧
    (∀ err, (w.logger e.Logger).Formatter.Format (e.prepared env w level field msg)
        = Except.error err →
      (e.log env w level field msg).trace.any Event.isWrite = false) := by
  have hspec := Entry.log_spec env w e level field msg hfile hout
  have hfr := Entry.finalize_frame env w e level field msg
  obtain ⟨hs, hft, hhs⟩ := (Entry.fireHooks_spec w (e.finalize env w level field msg)).2.2
  have hw := Entry.write_spec env w (e.prepared env w level field msg) hfile
  have hlg : (e.prepared env w level field msg).Logger = e.Logger := hfr.1
  rw [hlg] at hw
  obtain ⟨rest, hwt, _, hok, herr⟩ := hw.2.1
  rw [hfr.2.1] at hft
  have htr : (e.log env w level field msg).trace
      = Event.fire level (e.finalize env w level field msg) :: hs
        ++ Event.format (e.prepared env w level field msg) :: rest := by
    rw [hspec.2.1, hft, hwt]
  refine ⟨by simp [htr], by simp [htr], ?_, ?_⟩
  · intro b hb
    obtain ⟨rest2, hr2, _⟩ := hok b hb hout
    simp [htr, hr2]
  · intro err he
    have h1 : hs.any Event.isWrite = false :=
      List.any_eq_false.mpr (fun ev hev => by
        obtain ⟨m, hm⟩ := hhs ev hev
        rw [hm]; simp [Event.isWrite])
    have h2 : rest.any Event.isWrite = false :=
      List.any_eq_false.mpr (fun ev hev => by simp [herr err he ev hev])
    rw [htr]
    simp only [List.cons_append, List.any_cons, List.any_append, h1, h2]
    rfl

/-- C10 (as stated, refuted).  (a) An Entry that already carries the message
"old" is logged at Panic level with an empty message: the raised Entry has
message "old", not the message of the call.  (b) With a Formatter that returns
an error the event is not written, and the call raises all the same.  (c) On
a Logger whose sink is nil the event is not written and the value raised is
the nil-dereference error of `Out.Write`, not the Entry. -/
theorem Panic_counterexample :
    (({ NewEntry std with Message := "old" } : Entry).log (sampleEnv "")
        (World.init sampleFormatter) PanicLevel nilV "").outcome
      = Outcome.panicked (PanicValue.entry
          { Logger := std, Data := Fields.make, Time := 100, Level := PanicLevel,
            Message := "old" }) ∧
    ((NewEntry std).log (sampleEnv "") (World.init failingFormatter) PanicLevel nilV
        "boom").trace.any Event.isWrite = false ∧
    ((NewEntry std).log (sampleEnv "") (World.init failingFormatter) PanicLevel nilV
        "boom").outcome
      = Outcome.panicked (PanicValue.entry
          { Logger := std, Data := Fields.make, Time := 100, Level := PanicLevel,
            Message := "boom" }) ∧
    ((nilSinkWorld.logger std).Out = Writer.nil ∧
      ((NewEntry std).log (sampleEnv "") nilSinkWorld PanicLevel nilV
          "boom").trace.any Event.isWrite = false ∧
      ((NewEntry std).log (sampleEnv "") nilSinkWorld PanicLevel nilV "boom").outcome
        = Outcome.panicked PanicValue.nilDereference ∧
      (Logger.Panic (sampleEnv "") nilSinkWorld std nilV [stringValue "boom"]).outcome
        = Outcome.panicked PanicValue.nilDereference) := by
  decide

/-- C10 (amended): on a Logger whose sink is not nil, a Panic-severity log
call on `e` with message `m` fires the hooks, calls the Formatter and, if the
Formatter returns no error, writes its output to the sink; it then raises a
panic whose value is the finalized Entry: level Panic, message `m` if `m` is
non-empty and `e`'s own message otherwise, `e`'s fields, and as timestamp
`e`'s time if it was set and the reading of `time.Now()` otherwise, which is
non-zero as `time.Now()` does not return the zero instant.  `Entry.Panic` and
`Logger.Panic` end this way.  A log call at a level less severe than Panic
returns normally.  `hfile` is the invariant that the package-level `file` is
nil (`file_never_assigned`). -/
theorem Panic_raises_entry (env : Env) (w : World) (e : Entry) (lg : LoggerRef)
    (field : Value) (m : String) (args : List Value) (level : Level)
    (hfile : w.g.file = none) (hout : (w.logger e.Logger).Out ≠ Writer.nil)
    (houtL : (w.logger lg).Out ≠ Writer.nil) :
    (e.log env w PanicLevel field m).outcome
      = Outcome.panicked (PanicValue.entry (e.raised env w PanicLevel field m)) ∧
    ((e.raised env w PanicLevel field m).Level = PanicLevel ∧
      (e.raised env w PanicLevel field m).Message = (if m.length ≠ 0 then m else e.Message) ∧
      (e.raised env w PanicLevel field m).Data = e.Data ∧
      ((e.raised env w PanicLevel field m).Time
          = (if e.Time.IsZero then env.now else e.Time) ∧
        (env.now.IsZero = false → (e.raised env w PanicLevel field m).Time.IsZero = false)) ∧
      (e.Time.IsZero = false → (e.raised env w PanicLevel field m).Time = e.Time)) ∧
    (Event.fire PanicLevel (e.finalize env w PanicLevel field m)
        ∈ (e.log env w PanicLevel field m).trace ∧
      Event.format (e.prepared env w PanicLevel field m)
        ∈ (e.log env w PanicLevel field m).trace ∧
      (∀ b, (w.logger e.Logger).Formatter.Format (e.prepared env w PanicLevel field m)
          = Except.ok b →
        Event.write (w.logger e.Logger).Out b ∈ (e.log env w PanicLevel field m).trace) ∧
      (∀ err, (w.logger e.Logger).Formatter.Format (e.prepared env w PanicLevel field m)
          = Except.error err →
        (e.log env w PanicLevel field m).trace.any Event.isWrite = false)) ∧
    ((e.Panic env w field args).outcome
      = Outcome.panicked (PanicValue.entry (e.raised env w PanicLevel field (env.Sprint args)))) ∧
    ((Logger.Panic env w lg field args).outcome
      = Outcome.panicked
          (PanicValue.entry ((NewEntry lg).raised env w PanicLevel field (env.Sprint args)))) ∧
    (PanicLevel < level → (e.log env w level field m).outcome = Outcome.returned) := by
  have hP : ∀ (e2 : Entry) (m2 : String), (w.logger e2.Logger).Out ≠ Writer.nil →
      (e2.log env w PanicLevel field m2).outcome
        = Outcome.panicked (PanicValue.entry (e2.raised env w PanicLevel field m2)) := by
    intro e2 m2 ho
    rw [(Entry.log_spec env w e2 PanicLevel field m2 hfile ho).2.2, if_pos (Nat.le_refl _)]
  have hLog : ∀ (e2 : Entry), e2.Log env w PanicLevel field args
      = e2.log env w PanicLevel field (env.Sprint args) := by
    intro e2
    unfold Entry.Log
    have hen : (w.logger e2.Logger).IsLevelEnabled PanicLevel = true :=
      (Logger.IsLevelEnabled_iff _ _).mpr (Nat.zero_le _)
    rw [if_pos hen]
  have hfr := Entry.finalize_frame env w e PanicLevel field m
  refine ⟨hP e m hout, ⟨hfr.2.1, hfr.2.2.2.1, hfr.2.2.1, ?_, ?_⟩,
    Entry.log_events env w e PanicLevel field m hfile hout, ?_, ?_, ?_⟩
  · refine ⟨hfr.2.2.2.2.1, fun hnow => ?_⟩
    show (e.finalize env w PanicLevel field m).Time.IsZero = false
    rw [hfr.2.2.2.2.1]
    split_ifs with hz
    · exact hnow
    · simpa using hz
  · intro hz
    show (e.finalize env w PanicLevel field m).Time = e.Time
    rw [hfr.2.2.2.2.1, hz]
    rfl
  · unfold Entry.Panic
    rw [hLog e, Run.andThen_panicked _ _ _ (hP e _ hout)]
    exact hP e _ hout
  · unfold Logger.Panic
    rw [Logger.Log_eq, hLog]
    exact hP (NewEntry lg) _ houtL
  · intro hlt
    rw [(Entry.log_spec env w e level field m hfile hout).2.2, if_neg (Nat.not_le_of_lt hlt)]

theorem Panic_raises_entry_witness :
    (World.init sampleFormatter).g.file = none ∧
    ((World.init sampleFormatter).logger std).Out ≠ Writer.nil ∧
    (Logger.Panic (sampleEnv "") (World.init sampleFormatter) std nilV
        [stringValue "bad state"]).outcome
      = Outcome.panicked (PanicValue.entry
          ((NewEntry std).raised (sampleEnv "") (World.init sampleFormatter) PanicLevel nilV
            ((sampleEnv "").Sprint [stringValue "bad state"]))) ∧
    ((NewEntry std).raised (sampleEnv "") (World.init sampleFormatter) PanicLevel nilV
        "bad state").Time.IsZero = false ∧
    (NewEntry std).raised (sampleEnv "") (World.init sampleFormatter) PanicLevel nilV
        ((sampleEnv "").Sprint [stringValue "bad state"])
      = { Logger := std, Data := Fields.make, Time := 100, Level := PanicLevel,
          Message := "bad state" } :=
  ⟨rfl, by decide,
    (Panic_raises_entry (sampleEnv "") (World.init sampleFormatter) (NewEntry std) std nilV
      "bad state" [stringValue "bad state"] InfoLevel rfl (by decide) (by decide)).2.2.2.2.1,
    (Panic_raises_entry (sampleEnv "") (World.init sampleFormatter) (NewEntry std) std nilV
      "bad state" [stringValue "bad state"] InfoLevel rfl (by decide)
      (by decide)).2.1.2.2.2.1.2 (by decide),
    by decide⟩

/-! ## Output rotation -/

/-- C8 (the code at the failing input): `SetOutputFile("/var/log/",
"app-${time}.log", "200601021504")` ran when the formatted time was
"202401010000"; the sink is the fan-out of the file opened then and standard
error, and the package-level `file` is still nil.  An Info event logged when
the formatted time is "202401010001" opens no file: it is written to the old
sink, and the remembered stamp stays "202401010000". -/
theorem rotation_not_performed :
    (rotatedWorld.logger std).Out
      = Writer.multi (Writer.file "/var/log/app-202401010000.log") Writer.stderr ∧
    rotatedWorld.g.timeFlag = "202401010000" ∧
    rotatedWorld.g.chooseFileFlg = true ∧
    rotatedWorld.g.file = none ∧
    (sampleEnv "202401010001").nowFormat rotatedWorld.g.timeStr ≠ rotatedWorld.g.timeFlag ∧
    (chooseFile (sampleEnv "202401010001") rotatedWorld).trace = [] ∧
    ((NewEntry std).Log (sampleEnv "202401010001") rotatedWorld InfoLevel nilV
        [stringValue "tick"]).trace
      = [Event.fire InfoLevel
          { Logger := std, Data := Fields.make, Time := 100, Level := InfoLevel,
            Message := "tick" },
         Event.format
          { Logger := std, Data := Fields.make, Time := 100, Level := InfoLevel,
            Message := "tick", Buffer := some "" },
         Event.write
          (Writer.multi (Writer.file "/var/log/app-202401010000.log") Writer.stderr)
          "info: tick\n"] ∧
    ((NewEntry std).Log (sampleEnv "202401010001") rotatedWorld InfoLevel nilV
        [stringValue "tick"]).world.g.timeFlag = "202401010000" := by
  decide

/-! ## Rejection notes -/

theorem cannotAdd_ne_empty (quote : String → String) (k : String) : cannotAdd quote k ≠ "" := by
  intro h
  have h2 := congrArg String.length h
  simp only [cannotAdd, String.length_append] at h2
  have h3 : "can not add field ".length = 18 := by decide
  have h4 : "".length = 0 := rfl
  omega

theorem joined_ne_empty (a m : String) : a ++ ", " ++ m ≠ "" := by
  intro h
  have h2 := congrArg String.length h
  simp only [String.length_append] at h2
  have h3 : ", ".length = 2 := by decide
  have h4 : "".length = 0 := rfl
  omega

theorem rejectionMessages_concat (quote : String → String) (l : List (String × Value))
    (kv : String × Value) :
    rejectionMessages quote (l ++ [kv])
      = rejectionMessages quote l ++ (if isErrField kv.2 then [cannotAdd quote kv.1] else []) := by
  unfold rejectionMessages
  by_cases h : isErrField kv.2 = true
  · simp [List.filter_append, h]
  · simp [List.filter_append, h]

theorem rejectionMessages_ne_empty (quote : String → String) (l : List (String × Value))
    (m : String) (hm : m ∈ rejectionMessages quote l) : m ≠ "" := by
  unfold rejectionMessages at hm
  obtain ⟨kv, _, rfl⟩ := List.mem_map.mp hm
  exact cannotAdd_ne_empty quote kv.1

/-- The note left by the loop of `WithFields`, started with note `s`: `s` when
nothing is rejected; otherwise only the message of the key rejected last,
appended to `entryErr` unless it is the single rejection and `s` is empty. -/
theorem WithFields_step_snd (quote : String → String) (entryErr : String)
    (l : List (String × Value)) (d : Fields) (s : String) :
    (l.foldl (WithFields.step quote entryErr) (d, s)).2 =
      match (rejectionMessages quote l).getLast? with
      | none => s
      | some m =>
        if (rejectionMessages quote l).length = 1 ∧ s = "" then m else entryErr ++ ", " ++ m := by
  induction l using List.reverseRecOn with
  | nil => rfl
  | append_singleton l kv ih =>
    rw [List.foldl_append, List.foldl_cons, List.foldl_nil, rejectionMessages_concat]
    by_cases hk : isErrField kv.2 = true
    · have hst : (l.foldl (WithFields.step quote entryErr) (d, s)).2 ≠ ""
          ↔ ¬ ((rejectionMessages quote l).length = 0 ∧ s = "") := by
        rw [ih]
        cases hr : (rejectionMessages quote l).getLast? with
        | none =>
          have hnil : rejectionMessages quote l = [] := List.getLast?_eq_none_iff.mp hr
          simp [hnil]
        | some m =>
          have hmem : m ∈ rejectionMessages quote l := List.mem_of_getLast?_eq_some hr
          have hne : rejectionMessages quote l ≠ [] := List.ne_nil_of_mem hmem
          have hlen : (rejectionMessages quote l).length ≠ 0 := by
            simpa [List.length_eq_zero] using hne
          have hm := rejectionMessages_ne_empty quote l m hmem
          simp only []
          constructor
          · intro _ hc
            exact hlen hc.1
          · intro _
            split_ifs
            · exact hm
            · exact joined_ne_empty entryErr m
      have hstep : ∀ st : Fields × String, (WithFields.step quote entryErr st kv).2
          = (if st.2 ≠ "" then entryErr ++ ", " ++ cannotAdd quote kv.1
              else cannotAdd quote kv.1) := by
        intro st
        unfold WithFields.step
        simp only [hk, if_true]
        split_ifs <;> rfl
      simp only [hk, if_true, List.getLast?_concat, List.length_append, List.length_singleton]
      rw [hstep]
      by_cases hs : (l.foldl (WithFields.step quote entryErr) (d, s)).2 ≠ ""
      · have hc := hst.mp hs
        rw [if_pos hs, if_neg (fun h => hc ⟨by omega, h.2⟩)]
      · have hc : (rejectionMessages quote l).length = 0 ∧ s = "" := by
          by_contra hcon
          exact hs (hst.mpr hcon)
        rw [if_neg hs, if_pos ⟨by omega, hc.2⟩]
    · have hstep : ∀ st : Fields × String, (WithFields.step quote entryErr st kv).2 = st.2 := by
        intro st
        unfold WithFields.step
        simp only [hk, Bool.false_eq_true, if_false]
      simp only [hk, Bool.false_eq_true, if_false, List.append_nil]
      rw [hstep]
      exact ih

/-- The diagnostic note of `e.WithFields(fields)` in closed form. -/
theorem WithFields_err (quote : String → String) (e : Entry) (fields : Fields) :
    (e.WithFields quote fields).err =
      match (rejectionMessages quote fields.entries).getLast? with
      | none => e.err
      | some m =>
        if (rejectionMessages quote fields.entries).length = 1 ∧ e.err = "" then m
        else e.err ++ ", " ++ m := by
  unfold Entry.WithFields
  simp only []
  exact WithFields_step_snd quote e.err fields.entries _ e.err

/-- C13 (the code at the failing input): `e` carries the note
`can not add field "x"` and receives `WithFields` with function-shaped values
under "a" and "b".  The specification's note joins the three messages; the
code keeps `e`'s note and the message of the key visited last and loses the
other, in either iteration order.  Chained `WithField` calls do accumulate. -/
theorem WithFields_notes_not_accumulated :
    ((NewEntry 0).WithField goQuote "x" (funcV "h")).err = "can not add field \"x\"" ∧
    expectedNote ((NewEntry 0).WithField goQuote "x" (funcV "h")).err
        (rejectionMessages goQuote [("a", funcV "f"), ("b", funcV "g")])
      = "can not add field \"x\", can not add field \"a\", can not add field \"b\"" ∧
    (((NewEntry 0).WithField goQuote "x" (funcV "h")).WithFields goQuote
        ⟨[("a", funcV "f"), ("b", funcV "g")], by decide⟩).err
      = "can not add field \"x\", can not add field \"b\"" ∧
    (((NewEntry 0).WithField goQuote "x" (funcV "h")).WithFields goQuote
        ⟨[("b", funcV "g"), ("a", funcV "f")], by decide⟩).err
      = "can not add field \"x\", can not add field \"a\"" ∧
    ((((NewEntry 0).WithField goQuote "x" (funcV "h")).WithField goQuote "a"
        (funcV "f")).WithField goQuote "b" (funcV "g")).err
      = "can not add field \"x\", can not add field \"a\", can not add field \"b\"" := by
  decide

/-! ## Writes and hooks of a log call -/

theorem Entry.fireHooks_trace (w : World) (entry : Entry) :
    (entry.fireHooks w).trace
      = Event.fire entry.Level entry
          :: hookDiagnostic ((w.logger entry.Logger).Hooks.Fire entry.Level entry) := by
  unfold Entry.fireHooks
  cases (w.logger entry.Logger).Hooks.Fire entry.Level entry <;> rfl

/-- The calls of `Entry.log`, in order: the hooks are fired with the level
and the finalized entry, their error (if any) is printed, then `write` runs. -/
theorem Entry.log_trace (env : Env) (w : World) (e : Entry) (level : logger.Level)
    (field : Value) (msg : String) :
    (e.log env w level field msg).trace
      = Event.fire level (e.finalize env w level field msg)
          :: hookDiagnostic ((w.logger e.Logger).Hooks.Fire level
              (e.finalize env w level field msg))
          ++ ((e.prepared env w level field msg).write env w).trace := by
  have hfr := Entry.finalize_frame env w e level field msg
  rw [(Entry.log_run env w e level field msg).1, Entry.fireHooks_trace, hfr.1, hfr.2.1]

theorem hookDiagnostic_quiet (r : Option Error) :
    ∀ ev ∈ hookDiagnostic r, ev.isFire = false ∧ ev.isFormat = false ∧ ev.isWrite = false := by
  intro ev hev
  cases r with
  | none => simp [hookDiagnostic] at hev
  | some err =>
    simp only [hookDiagnostic, List.mem_singleton] at hev
    rw [hev]
    exact ⟨rfl, rfl, rfl⟩

theorem filter_none {α : Type} (p : α → Bool) (l : List α) (h : ∀ a ∈ l, p a = false) :
    l.filter p = [] :=
  List.filter_eq_nil_iff.mpr (fun a ha => by simp [h a ha])

theorem Entry.Log_enabled (env : Env) (w : World) (e : Entry) (level : logger.Level)
    (field : Value) (args : List Value) (hen : level ≤ (w.logger e.Logger).Level) :
    e.Log env w level field args = e.log env w level field (env.Sprint args) := by
  unfold Entry.Log
  rw [if_pos ((Logger.IsLevelEnabled_iff _ _).mpr hen)]

theorem Entry.Log_disabled (env : Env) (w : World) (e : Entry) (level : logger.Level)
    (field : Value) (args : List Value)
    (hen : ¬ (w.logger e.Logger).IsLevelEnabled level = true) :
    e.Log env w level field args = Run.skip w := by
  unfold Entry.Log
  rw [if_neg hen]

theorem Entry.Logf_eq (env : Env) (w : World) (e : Entry) (level : logger.Level)
    (field : Value) (format : String) (args : List Value) :
    e.Logf env w level field format args
      = e.Log env w level field [stringValue (env.Sprintf format args)] := by
  unfold Entry.Logf
  split_ifs with h
  · rfl
  · exact (Entry.Log_disabled env w e level field _ h).symm

theorem Entry.Logln_eq (env : Env) (w : World) (e : Entry) (level : logger.Level)
    (field : Value) (args : List Value) :
    e.Logln env w level field args
      = e.Log env w level field [stringValue (Entry.sprintlnn env args)] := by
  unfold Entry.Logln
  split_ifs with h
  · rfl
  · exact (Entry.Log_disabled env w e level field _ h).symm

theorem Logger.Logf_newEntry (env : Env) (w : World) (lg : LoggerRef) (level : logger.Level)
    (field : Value) (format : String) (args : List Value) :
    Logger.Logf env w lg level field format args
      = (NewEntry lg).Logf env w level field format args := by
  unfold Logger.Logf Logger.newEntry
  split_ifs with h
  · rfl
  · unfold Entry.Logf
    rw [if_neg (show ¬ (w.logger (NewEntry lg).Logger).IsLevelEnabled level = true from h)]

theorem Logger.Logln_newEntry (env : Env) (w : World) (lg : LoggerRef) (level : logger.Level)
    (field : Value) (args : List Value) :
    Logger.Logln env w lg level field args = (NewEntry lg).Logln env w level field args := by
  unfold Logger.Logln Logger.newEntry
  split_ifs with h
  · rfl
  · unfold Entry.Logln
    rw [if_neg (show ¬ (w.logger (NewEntry lg).Logger).IsLevelEnabled level = true from h)]

/-- C11 (as stated, refuted): an enabled Info call on a Logger whose sink is
nil.  `Format` succeeds, yet no `Write` is made, and the call does not return
to its caller: it panics with a nil dereference at `Out.Write`. -/
theorem Log_nil_sink_counterexample :
    (nilSinkWorld.logger std).Out = Writer.nil ∧
    InfoLevel ≤ (nilSinkWorld.logger std).Level ∧ PanicLevel < InfoLevel ∧
    (nilSinkWorld.logger std).Formatter.Format
        ((NewEntry std).prepared (sampleEnv "") nilSinkWorld InfoLevel nilV
          ((sampleEnv "").Sprint [stringValue "tick"]))
      = Except.ok "info: tick\n" ∧
    ((NewEntry std).Log (sampleEnv "") nilSinkWorld InfoLevel nilV
        [stringValue "tick"]).trace.filter Event.isWrite = [] ∧
    ((NewEntry std).Log (sampleEnv "") nilSinkWorld InfoLevel nilV
        [stringValue "tick"]).outcome = Outcome.panicked PanicValue.nilDereference ∧
    (Logger.Log (sampleEnv "") nilSinkWorld std InfoLevel nilV
        [stringValue "tick"]).outcome = Outcome.panicked PanicValue.nilDereference := by
  decide

/-- C11 (amended): an enabled log call at a level less severe than Panic on a
Logger whose sink is not nil.  If `Format` succeeds the sink receives exactly
one `Write`, with the formatter's output; if `Format` returns an error the
sink receives no `Write`; and the call returns to its caller, also when the
sink's `Write` fails.  This is stated for `Entry.Log`; `Logf`, `Logln` and the
three `Logger` methods are `Entry.Log` with other arguments.  `hfile` is the
invariant that the package-level `file` is nil (`file_never_assigned`). -/
theorem write_once_or_dropped (env : Env) (w : World) (e : Entry) (lg : LoggerRef)
    (L : Level) (field : Value) (format : String) (args : List Value)
    (hfile : w.g.file = none) (hout : (w.logger e.Logger).Out ≠ Writer.nil)
    (hen : L ≤ (w.logger e.Logger).Level) (hsev : PanicLevel < L) :
    (∀ b, (w.logger e.Logger).Formatter.Format (e.prepared env w L field (env.Sprint args))
        = Except.ok b →
      (e.Log env w L field args).trace.filter Event.isWrite
        = [Event.write (w.logger e.Logger).Out b]) ∧
    (∀ err, (w.logger e.Logger).Formatter.Format (e.prepared env w L field (env.Sprint args))
        = Except.error err →
      (e.Log env w L field args).trace.filter Event.isWrite = []) ∧
    (e.Log env w L field args).outcome = Outcome.returned ∧
    (e.Logf env w L field format args
        = e.Log env w L field [stringValue (env.Sprintf format args)] ∧
      e.Logln env w L field args
        = e.Log env w L field [stringValue (Entry.sprintlnn env args)] ∧
      Logger.Log env w lg L field args = (NewEntry lg).Log env w L field args ∧
      Logger.Logf env w lg L field format args = (NewEntry lg).Logf env w L field format args ∧
      Logger.Logln env w lg L field args = (NewEntry lg).Logln env w L field args) := by
  have hLog := Entry.Log_enabled env w e L field args hen
  have htr := Entry.log_trace env w e L field (env.Sprint args)
  have hfr := Entry.finalize_frame env w e L field (env.Sprint args)
  have hw := Entry.write_spec env w (e.prepared env w L field (env.Sprint args)) hfile
  have hlg : (e.prepared env w L field (env.Sprint args)).Logger = e.Logger := hfr.1
  rw [hlg] at hw
  obtain ⟨rest, hwt, _, hok, herr⟩ := hw.2.1
  have hdiag := hookDiagnostic_quiet ((w.logger e.Logger).Hooks.Fire L
    (e.finalize env w L field (env.Sprint args)))
  have hd : (hookDiagnostic ((w.logger e.Logger).Hooks.Fire L
      (e.finalize env w L field (env.Sprint args)))).filter Event.isWrite = [] :=
    filter_none _ _ (fun ev hev => (hdiag ev hev).2.2)
  refine ⟨?_, ?_, ?_, Entry.Logf_eq env w e L field format args,
    Entry.Logln_eq env w e L field args, Logger.Log_eq env w lg L field args,
    Logger.Logf_newEntry env w lg L field format args, Logger.Logln_newEntry env w lg L field args⟩
  · intro b hb
    obtain ⟨rest2, hr2, hnone⟩ := hok b hb hout
    rw [hLog, htr, hwt, hr2]
    simp only [List.cons_append, List.filter_cons, List.filter_append, hd,
      filter_none _ _ hnone, Event.isWrite]
    simp
  · intro err he
    rw [hLog, htr, hwt]
    simp only [List.cons_append, List.filter_cons, List.filter_append, hd,
      filter_none _ _ (herr err he), Event.isWrite]
    simp
  · rw [hLog, (Entry.log_spec env w e L field (env.Sprint args) hfile hout).2.2,
      if_neg (Nat.not_le_of_lt hsev)]

theorem write_once_or_dropped_witness :
    (World.init sampleFormatter).g.file = none ∧
    ((World.init sampleFormatter).logger std).Out ≠ Writer.nil ∧
    InfoLevel ≤ ((World.init sampleFormatter).logger std).Level ∧
    PanicLevel < InfoLevel ∧
    ((NewEntry std).Log brokenSinkEnv (World.init sampleFormatter) InfoLevel nilV
        [stringValue "tick"]).trace.filter Event.isWrite
      = [Event.write Writer.stderr "info: tick\n"] ∧
    ((NewEntry std).Log brokenSinkEnv (World.init sampleFormatter) InfoLevel nilV
        [stringValue "tick"]).outcome = Outcome.returned :=
  ⟨rfl, by decide, by decide, by decide,
    (write_once_or_dropped brokenSinkEnv (World.init sampleFormatter) (NewEntry std) std
      InfoLevel nilV "%v" [stringValue "tick"] rfl (by decide) (by decide) (by decide)).1
      "info: tick\n" (by decide),
    (write_once_or_dropped brokenSinkEnv (World.init sampleFormatter) (NewEntry std) std
      InfoLevel nilV "%v" [stringValue "tick"] rfl (by decide) (by decide) (by decide)).2.2.1⟩

/-- What `ReplaceHooks` changes: the hooks of that logger, and nothing else. -/
theorem Logger.ReplaceHooks_frame (w : World) (lg : LoggerRef) (hooks : LevelHooks) :
    (Logger.ReplaceHooks w lg hooks).1.g = w.g ∧
    ((Logger.ReplaceHooks w lg hooks).1.logger lg).Hooks = hooks ∧
    (∀ x, ((Logger.ReplaceHooks w lg hooks).1.logger x).Formatter = (w.logger x).Formatter ∧
      ((Logger.ReplaceHooks w lg hooks).1.logger x).Out = (w.logger x).Out ∧
      ((Logger.ReplaceHooks w lg hooks).1.logger x).ReportCaller = (w.logger x).ReportCaller ∧
      ((Logger.ReplaceHooks w lg hooks).1.logger x).Level = (w.logger x).Level) := by
  unfold Logger.ReplaceHooks World.setLogger
  refine ⟨rfl, by simp, fun x => ?_⟩
  by_cases h : x = lg
  · subst h; simp
  · simp [h]

theorem Entry.finalize_congr (env : Env) (w w2 : World) (e : Entry) (level : logger.Level)
    (field : Value) (msg : String)
    (h : ∀ x, (w2.logger x).ReportCaller = (w.logger x).ReportCaller) :
    e.finalize env w2 level field msg = e.finalize env w level field msg := by
  unfold Entry.finalize
  simp only [h]

/-- The calls and the outcome of `Entry.write` depend on the logger only through its
formatter and its sink. -/
theorem Entry.write_congr (env : Env) (w w2 : World) (entry : Entry)
    (hfile : w.g.file = none) (hfile2 : w2.g.file = none)
    (hF : (w2.logger entry.Logger).Formatter = (w.logger entry.Logger).Formatter)
    (hO : (w2.logger entry.Logger).Out = (w.logger entry.Logger).Out) :
    (entry.write env w2).trace = (entry.write env w).trace ∧
    (entry.write env w2).outcome = (entry.write env w).outcome := by
  unfold Entry.write
  rw [chooseFile_file_nil env w hfile, chooseFile_file_nil env w2 hfile2]
  simp only [Run.andThen, Run.skip, List.nil_append, hF, hO]
  cases (w.logger entry.Logger).Formatter.Format entry with
  | error err => exact ⟨rfl, rfl⟩
  | ok b =>
    simp only []
    split_ifs
    · exact ⟨rfl, rfl⟩
    · cases env.write (w.logger entry.Logger).Out b <;> exact ⟨rfl, rfl⟩

/-- C12: an enabled log call fires the hook registry exactly once, with the
event's level and the finalized Entry, before the Formatter is called.  What
follows the firing (the Formatter call and the sink write) and the way the
call ends are the same whatever hooks are installed and whatever they return:
an error of the hooks only adds a diagnostic line and is not raised.  When the
sink is set the call ends as `Entry.log` prescribes for the level.  This is
stated for `Entry.Log`; `Logf`, `Logln` and the three `Logger` methods are
`Entry.Log` with other arguments.  `hfile` is the invariant that the
package-level `file` is nil (`file_never_assigned`). -/
theorem hooks_fired_once_before_format (env : Env) (w : World) (e : Entry) (lg : LoggerRef)
    (L : Level) (field : Value) (format : String) (args : List Value) (hooks2 : LevelHooks)
    (hfile : w.g.file = none) (hen : L ≤ (w.logger e.Logger).Level) :
    (e.Log env w L field args).trace.filter Event.isFire
      = [Event.fire L (e.finalize env w L field (env.Sprint args))] ∧
    (∃ rest,
      (e.Log env w L field args).trace
        = Event.fire L (e.finalize env w L field (env.Sprint args))
            :: hookDiagnostic ((w.logger e.Logger).Hooks.Fire L
                (e.finalize env w L field (env.Sprint args)))
            ++ Event.format (e.prepared env w L field (env.Sprint args)) :: rest ∧
      (e.Log env (Logger.ReplaceHooks w e.Logger hooks2).1 L field args).trace
        = Event.fire L (e.finalize env w L field (env.Sprint args))
            :: hookDiagnostic (hooks2.Fire L (e.finalize env w L field (env.Sprint args)))
            ++ Event.format (e.prepared env w L field (env.Sprint args)) :: rest ∧
      ∀ ev ∈ rest, ev.isFire = false ∧ ev.isFormat = false) ∧
    (e.Log env (Logger.ReplaceHooks w e.Logger hooks2).1 L field args).outcome
      = (e.Log env w L field args).outcome ∧
    ((w.logger e.Logger).Out ≠ Writer.nil →
      (e.Log env w L field args).outcome
        = (if L ≤ PanicLevel then
            Outcome.panicked (PanicValue.entry (e.raised env w L field (env.Sprint args)))
          else Outcome.returned)) ∧
    (e.Logf env w L field format args
        = e.Log env w L field [stringValue (env.Sprintf format args)] ∧
      e.Logln env w L field args
        = e.Log env w L field [stringValue (Entry.sprintlnn env args)] ∧
      Logger.Log env w lg L field args = (NewEntry lg).Log env w L field args ∧
      Logger.Logf env w lg L field format args = (NewEntry lg).Logf env w L field format args ∧
      Logger.Logln env w lg L field args = (NewEntry lg).Logln env w L field args) := by
  have hfrm := Logger.ReplaceHooks_frame w e.Logger hooks2
  have hfile2 : (Logger.ReplaceHooks w e.Logger hooks2).1.g.file = none := by
    rw [hfrm.1]; exact hfile
  have hen2 : L ≤ ((Logger.ReplaceHooks w e.Logger hooks2).1.logger e.Logger).Level := by
    rw [(hfrm.2.2 e.Logger).2.2.2]; exact hen
  have hfin : e.finalize env (Logger.ReplaceHooks w e.Logger hooks2).1 L field (env.Sprint args)
      = e.finalize env w L field (env.Sprint args) :=
    Entry.finalize_congr env w _ e L field _ (fun x => (hfrm.2.2 x).2.2.1)
  have hprep : e.prepared env (Logger.ReplaceHooks w e.Logger hooks2).1 L field (env.Sprint args)
      = e.prepared env w L field (env.Sprint args) := by
    unfold Entry.prepared
    rw [hfin]
  have hraised : e.raised env (Logger.ReplaceHooks w e.Logger hooks2).1 L field (env.Sprint args)
      = e.raised env w L field (env.Sprint args) := by
    unfold Entry.raised
    rw [hfin]
  have hfr := Entry.finalize_frame env w e L field (env.Sprint args)
  have hlg : (e.prepared env w L field (env.Sprint args)).Logger = e.Logger := hfr.1
  have hwc := Entry.write_congr env w (Logger.ReplaceHooks w e.Logger hooks2).1
    (e.prepared env w L field (env.Sprint args)) hfile hfile2
    (by rw [hlg]; exact (hfrm.2.2 e.Logger).1) (by rw [hlg]; exact (hfrm.2.2 e.Logger).2.1)
  have hw := Entry.write_spec env w (e.prepared env w L field (env.Sprint args)) hfile
  obtain ⟨rest, hwt, hrest, _, _⟩ := hw.2.1
  have htr := Entry.log_trace env w e L field (env.Sprint args)
  have htr2 := Entry.log_trace env (Logger.ReplaceHooks w e.Logger hooks2).1 e L field
    (env.Sprint args)
  rw [hfin, hprep, hfrm.2.1, hwc.1, hwt] at htr2
  rw [hwt] at htr
  have hLog := Entry.Log_enabled env w e L field args hen
  have hLog2 := Entry.Log_enabled env (Logger.ReplaceHooks w e.Logger hooks2).1 e L field args hen2
  have ho := (Entry.log_run env w e L field (env.Sprint args)).2
  have ho2 := (Entry.log_run env (Logger.ReplaceHooks w e.Logger hooks2).1 e L field
    (env.Sprint args)).2
  rw [hraised, hprep, hwc.2] at ho2
  have hdiag := hookDiagnostic_quiet ((w.logger e.Logger).Hooks.Fire L
    (e.finalize env w L field (env.Sprint args)))
  refine ⟨?_, ⟨rest, ?_, ?_, fun ev hev => ⟨(hrest ev hev).1, (hrest ev hev).2.1⟩⟩, ?_, ?_,
    Entry.Logf_eq env w e L field format args, Entry.Logln_eq env w e L field args,
    Logger.Log_eq env w lg L field args, Logger.Logf_newEntry env w lg L field format args,
    Logger.Logln_newEntry env w lg L field args⟩
  · rw [hLog, htr]
    simp only [List.cons_append, List.filter_cons, List.filter_append,
      filter_none _ _ (fun ev hev => (hdiag ev hev).1),
      filter_none _ _ (fun ev hev => (hrest ev hev).1), Event.isFire]
    simp
  · rw [hLog, htr]
  · rw [hLog2, htr2]
  · rw [hLog2, hLog, ho2, ho]
  · intro hout
    rw [hLog, (Entry.log_spec env w e L field (env.Sprint args) hfile hout).2.2]

theorem hooks_fired_once_before_format_witness :
    (World.init sampleFormatter).g.file = none ∧
    InfoLevel ≤ ((World.init sampleFormatter).logger std).Level ∧
    ((NewEntry std).Log (sampleEnv "")
        (Logger.ReplaceHooks (World.init sampleFormatter) std failingHooks).1 InfoLevel nilV
        [stringValue "tick"]).outcome
      = ((NewEntry std).Log (sampleEnv "") (World.init sampleFormatter) InfoLevel nilV
        [stringValue "tick"]).outcome ∧
    ((NewEntry std).Log (sampleEnv "") (World.init sampleFormatter) InfoLevel nilV
        [stringValue "tick"]).outcome = Outcome.returned ∧
    ((NewEntry std).Log (sampleEnv "")
        nilSinkWorld InfoLevel nilV [stringValue "tick"]).trace.filter Event.isFire
      = [Event.fire InfoLevel ((NewEntry std).finalize (sampleEnv "")
          nilSinkWorld InfoLevel nilV ((sampleEnv "").Sprint [stringValue "tick"]))] :=
  ⟨rfl, by decide,
    (hooks_fired_once_before_format (sampleEnv "") (World.init sampleFormatter) (NewEntry std)
      std InfoLevel nilV "%v" [stringValue "tick"] failingHooks rfl (by decide)).2.2.1,
    (hooks_fired_once_before_format (sampleEnv "") (World.init sampleFormatter) (NewEntry std)
      std InfoLevel nilV "%v" [stringValue "tick"] failingHooks rfl (by decide)).2.2.2.1
      (by decide),
    (hooks_fired_once_before_format (sampleEnv "") nilSinkWorld (NewEntry std)
      std InfoLevel nilV "%v" [stringValue "tick"] failingHooks rfl (by decide)).1⟩

example : ((NewEntry std).Log (sampleEnv "")
    (Logger.ReplaceHooks (World.init sampleFormatter) std failingHooks).1 InfoLevel nilV
    [stringValue "tick"]).trace
    = [Event.fire InfoLevel
        { Logger := std, Data := Fields.make, Time := 100, Level := InfoLevel,
          Message := "tick" },
       Event.stderr "Failed to fire hook: hook down\n",
       Event.format
        { Logger := std, Data := Fields.make, Time := 100, Level := InfoLevel,
          Message := "tick", Buffer := some "" },
       Event.write Writer.stderr "info: tick\n"] := by
  decide

end logger
